import Mathlib

set_option linter.unusedVariables false

/-!
Verification development for the Harfiye word-duel backend
(`src/index.ts`).  The TypeScript source is shallowly embedded: strings
become `List Char` / `String`, the mutable room `Map` becomes an
association list, the interval timers become an explicit set of live
`(roomId, playerId)` pairs, socket emissions become an explicit list of
`Emit` values, and every socket handler becomes a pure function from a
`ServerState` to a `HandlerResult`.  Randomness (`Math.random`) and the
wall clock (`Date.now`) are passed in as oracle arguments.
-/

namespace Harfiye

/-- Per-letter feedback label produced by `evaluateGuess`. -/
inductive Feedback where
  | correct
  | present
  | absent
deriving DecidableEq, Repr

/-- `normalizeAccentedChars`: folds the circumflexed vowels
â, Â → a; î, Î → i; û, Û → u; every other character is kept. -/
def accentFold (c : Char) : Char :=
  if c = 'â' ∨ c = 'Â' then 'a'
  else if c = 'î' ∨ c = 'Î' then 'i'
  else if c = 'û' ∨ c = 'Û' then 'u'
  else c

/-- Per-character model of JavaScript `toLowerCase` on the alphabet this
game uses: ASCII letters plus the Turkish uppercase letters that have a
single-character lowercase form. -/
def lowerChar (c : Char) : Char :=
  if c = 'Ç' then 'ç' else if c = 'Ğ' then 'ğ'
  else if c = 'Ö' then 'ö' else if c = 'Ş' then 'ş'
  else if c = 'Ü' then 'ü' else if c = 'İ' then 'i'
  else c.toLower

/-- Accent folding followed by lower-casing, applied characterwise:
the composite `normalizeAccentedChars(s).toLowerCase()` from the source. -/
def normChar (c : Char) : Char := lowerChar (accentFold c)

/-- Characterwise normalization of a word, as applied to both the guess
and the solution inside `evaluateGuess` and `isValidWord`. -/
def normalize (l : List Char) : List Char := l.map normChar

/-- String-level normalization used by `isValidWord`. -/
def normalizeStr (s : String) : String := String.mk (normalize s.data)

/-- First pass of `evaluateGuess`: walk the (normalized) solution
positionally; where the guess letter equals the solution letter, record
`correct` and overwrite the solution slot with the consumed marker `'*'`.
Positions of the solution beyond the guess length compare against
JavaScript `undefined`, which never equals a character, so they are left
unlabeled.  Returns the partial feedback (aligned with the solution) and
the marked solution array. -/
def pass1 : List Char → List Char → List (Option Feedback) × List Char
  | _, [] => ([], [])
  | [], sc :: ss =>
    let r := pass1 [] ss
    (none :: r.1, sc :: r.2)
  | gc :: gs, sc :: ss =>
    let r := pass1 gs ss
    if gc = sc then (some Feedback.correct :: r.1, '*' :: r.2)
    else (none :: r.1, sc :: r.2)

/-- `solutionArray.indexOf(c)` followed by overwriting that index with
`'*'`: replace the first occurrence of `c`, or fail when `c` is absent. -/
def consume (c : Char) : List Char → Option (List Char)
  | [] => none
  | x :: xs => if x = c then some ('*' :: xs) else (consume c xs).map (x :: ·)

/-- Second pass of `evaluateGuess`: walk the partial feedback; positions
already labeled keep their label, unlabeled positions search the marked
solution array for the guess letter (`present`, consuming one occurrence)
or become `absent`.  A position beyond the guess length looks up
`undefined`, which `indexOf` never finds, hence `absent`. -/
def pass2 : List Char → List (Option Feedback) → List Char → List Feedback
  | _, [], _ => []
  | g, some x :: fs, s => x :: pass2 g.tail fs s
  | [], none :: fs, s => Feedback.absent :: pass2 [] fs s
  | gc :: gs, none :: fs, s =>
    match consume gc s with
    | some s' => Feedback.present :: pass2 gs fs s'
    | none => Feedback.absent :: pass2 gs fs s

/-- Core of `evaluateGuess` over already-normalized character lists. -/
def evalCore (g s : List Char) : List Feedback :=
  let r := pass1 g s
  pass2 g r.1 r.2

/-- `evaluateGuess(guess, solution)`: two-pass duplicate-aware Wordle
feedback over the normalized words; the output is indexed by the
solution positions (`wordLength = solution.length`). -/
def evaluateGuess (guess solution : String) : List Feedback :=
  evalCore (normalize guess.data) (normalize solution.data)

/-- Number of occurrences of a character in a word. -/
def countc (c : Char) : List Char → Nat
  | [] => 0
  | x :: xs => (if x = c then 1 else 0) + countc c xs

/-- Number of positions of the guess that hold character `c` and carry a
`correct` or `present` label in the feedback. -/
def countCP (c : Char) : List Char → List Feedback → Nat
  | gc :: gs, fb :: fs =>
    (if gc = c ∧ (fb = Feedback.correct ∨ fb = Feedback.present) then 1 else 0) + countCP c gs fs
  | _, _ => 0

/-- Number of positions of the guess that hold `c` and carry `correct`. -/
def countCorrF (c : Char) : List Char → List Feedback → Nat
  | gc :: gs, fb :: fs =>
    (if gc = c ∧ fb = Feedback.correct then 1 else 0) + countCorrF c gs fs
  | _, _ => 0

/-- Number of positions of the guess that hold `c` and carry `present`. -/
def countPresF (c : Char) : List Char → List Feedback → Nat
  | gc :: gs, fb :: fs =>
    (if gc = c ∧ fb = Feedback.present then 1 else 0) + countPresF c gs fs
  | _, _ => 0

/-- Number of positions of the guess that hold `c` and were labeled
`correct` by the first pass (partial feedback). -/
def countCorr1 (c : Char) : List Char → List (Option Feedback) → Nat
  | gc :: gs, fb :: fs =>
    (if gc = c ∧ fb = some Feedback.correct then 1 else 0) + countCorr1 c gs fs
  | _, _ => 0

/-! Server data model: the interfaces `PlayerState` and `GameState`, the
room registry `gameRooms` (a `Map` in the source, an association list
here), and the timer registry `gameTimers` (modelled as the set of
`(roomId, playerId)` pairs that currently own a live interval). -/

inductive Status where
  | waiting
  | playing
  | finished
deriving DecidableEq, Repr

structure GuessEntry where
  guess : String
  feedback : List Feedback
deriving DecidableEq, Repr

structure PlayerState where
  id : String
  name : String
  guesses : List GuessEntry
  timeRemaining : Int
  isReady : Bool
  isTimedOut : Bool
deriving DecidableEq, Repr

structure RematchRequest where
  requesterId : String
  requested : Bool
  accepted : Option Bool
deriving DecidableEq, Repr

structure GameState where
  roomId : String
  players : List PlayerState
  maxPlayers : Nat
  wordLength : Nat
  timeLimit : Option Int
  status : Status
  solution : String
  createdAt : Nat
  rematchRequest : Option RematchRequest
deriving DecidableEq, Repr

/-- The client-facing projection of a game state.  The source computes it
by rest-destructuring (`const { solution, ...clientGameState }`), so the
resulting object has every field of `GameState` except `solution`. -/
structure ClientState where
  roomId : String
  players : List PlayerState
  maxPlayers : Nat
  wordLength : Nat
  timeLimit : Option Int
  status : Status
  createdAt : Nat
  rematchRequest : Option RematchRequest
deriving DecidableEq, Repr

/-- `sanitizeGameStateForClient`: drop the solution, keep the rest. -/
def sanitizeGameStateForClient (g : GameState) : ClientState :=
  { roomId := g.roomId, players := g.players, maxPlayers := g.maxPlayers,
    wordLength := g.wordLength, timeLimit := g.timeLimit, status := g.status,
    createdAt := g.createdAt, rematchRequest := g.rematchRequest }

/-- Where an emission goes: `caller` is `socket.emit` (the acting socket
only); `ioTo name` is `io.to(name).emit` (every socket in room `name`,
where a room name is either a room id or a socket id); `socketTo name` is
`socket.to(name).emit` (room `name` minus the acting socket). -/
inductive Target where
  | caller
  | ioTo (name : String)
  | socketTo (name : String)
deriving DecidableEq, Repr

/-- Payload shapes of the outbound events of the source. -/
inductive Payload where
  | message (text : String)
  | roomCreated (roomId : String)
  | state (gs : ClientState)
  | stateWithPlayerName (gs : ClientState) (playerName : String)
  | endOfGame (winnerId : Option String) (solution : String) (gs : ClientState)
  | timer (playerId : String) (timeRemaining : Int)
  | requesterNameOf (name : String)
  | seconds (n : Int)
  | empty
deriving DecidableEq, Repr

structure Emit where
  target : Target
  event : String
  payload : Payload
deriving DecidableEq, Repr

structure ServerState where
  gameRooms : List (String × GameState)
  gameTimers : List (String × String)
deriving DecidableEq, Repr

/-- Result of one synchronous handler run.  `crashed` records an uncaught
JavaScript exception (only `getRandomWord` can throw in this core). -/
structure HandlerResult where
  state : ServerState
  emits : List Emit
  crashed : Bool
deriving DecidableEq, Repr

/-- `gameRooms.get(roomId)`. -/
def findRoom (rooms : List (String × GameState)) (rid : String) : Option GameState :=
  (rooms.find? (fun p => p.1 == rid)).map (·.2)

/-- `gameRooms.set(roomId, g)`: replace the entry when the key is
present, append otherwise. -/
def setRoom (rooms : List (String × GameState)) (rid : String) (g : GameState) :
    List (String × GameState) :=
  if rooms.any (fun p => p.1 == rid) then
    rooms.map (fun p => if p.1 == rid then (rid, g) else p)
  else rooms ++ [(rid, g)]

/-- `gameRooms.delete(roomId)`. -/
def deleteRoom (rooms : List (String × GameState)) (rid : String) :
    List (String × GameState) :=
  rooms.filter (fun p => !(p.1 == rid))

/-- The `for (const [roomId, state] of gameRooms.entries())` scan used by
make_guess, the rematch handlers and disconnect: the first room whose
roster contains the socket. -/
def findRoomByPlayer (rooms : List (String × GameState)) (sid : String) :
    Option (String × GameState) :=
  rooms.find? (fun p => p.2.players.any (fun q => q.id == sid))

/-- `clearPlayerTimer`: cancel the interval owned by one pair. -/
def clearPlayerTimer (timers : List (String × String)) (rid pid : String) :
    List (String × String) :=
  timers.filter (fun t => !(t.1 == rid && t.2 == pid))

/-- `clearAllRoomTimers`: cancel every interval owned by a room. -/
def clearAllRoomTimers (timers : List (String × String)) (rid : String) :
    List (String × String) :=
  timers.filter (fun t => !(t.1 == rid))

/-- Mutation through the alias returned by `players.find(...)`: update
the first roster entry with the given id. -/
def updateFirstPlayer (ps : List PlayerState) (pid : String)
    (f : PlayerState → PlayerState) : List PlayerState :=
  match ps with
  | [] => []
  | p :: rest => if p.id == pid then f p :: rest else p :: updateFirstPlayer rest pid f

/-- `players.splice(playerIndex, 1)` after `findIndex`: drop the first
roster entry with the given id. -/
def removeFirstPlayer (ps : List PlayerState) (pid : String) : List PlayerState :=
  match ps with
  | [] => []
  | p :: rest => if p.id == pid then rest else p :: removeFirstPlayer rest pid

/-- JavaScript `x || d` on an optional number: `null`/`undefined` and the
falsy `0` give the default. -/
def jsOr (x : Option Int) (d : Int) : Int :=
  match x with
  | some v => if v == 0 then d else v
  | none => d

/-- The winner test of `checkGameEnd`: the player's last guess exists and
its feedback is all `correct` (`Array.every`, hence vacuously true for an
empty feedback array). -/
def isWinningPlayer (p : PlayerState) : Bool :=
  match p.guesses.getLast? with
  | some lastGuess => lastGuess.feedback.all (fun f => f == Feedback.correct)
  | none => false

/-- `checkGameEnd`: first winner in roster order wins; otherwise the game
ends with no winner when every player is timed out, or when every player
has used 6 guesses or is timed out. -/
def checkGameEnd (g : GameState) : Bool × Option String :=
  match g.players.find? isWinningPlayer with
  | some p => (true, some p.id)
  | none =>
    if (g.players.filter (fun p => p.isTimedOut)).length = g.players.length then (true, none)
    else if g.players.all (fun p => decide (p.guesses.length ≥ 6) || p.isTimedOut) then (true, none)
    else (false, none)

/-- The `player.isTimedOut = true` mutation of `handlePlayerTimeout`. -/
def markTimedOut (g : GameState) (pid : String) : GameState :=
  { g with players := updateFirstPlayer g.players pid (fun q => { q with isTimedOut := true }) }

/-- The `player.timeRemaining = x` assignment. -/
def setTR (x : Int) (q : PlayerState) : PlayerState := { q with timeRemaining := x }

/-- `startPlayerTimer`: a no-op when the player is missing or already
timed out; with no time limit it only sets the unlimited sentinel `-1`;
otherwise it cancels the pair's previous interval, sets the remaining
time to the limit, and registers a fresh interval for the pair. -/
def startPlayerTimer (rid pid : String) (g : GameState)
    (timers : List (String × String)) : GameState × List (String × String) :=
  match g.players.find? (fun p => p.id == pid) with
  | none => (g, timers)
  | some p =>
    if p.isTimedOut then (g, timers)
    else
      match g.timeLimit with
      | none =>
        ({ g with players := updateFirstPlayer g.players pid (setTR (-1)) }, timers)
      | some t =>
        ({ g with players := updateFirstPlayer g.players pid (setTR t) },
          clearPlayerTimer timers rid pid ++ [(rid, pid)])

/-- `gameState.players.forEach(player => startPlayerTimer(roomId,
player.id, gameState))`, threading the mutations left to right over the
roster's ids. -/
def startTimersFor (rid : String) (ids : List String) (g : GameState)
    (timers : List (String × String)) : GameState × List (String × String) :=
  match ids with
  | [] => (g, timers)
  | pid :: rest =>
    let r := startPlayerTimer rid pid g timers
    startTimersFor rid rest r.1 r.2

def startAllTimers (rid : String) (g : GameState)
    (timers : List (String × String)) : GameState × List (String × String) :=
  startTimersFor rid (g.players.map (·.id)) g timers

/-! Word repository.  The word lists are data files outside this core
(`words_tr_5.json` …), so the repository is a parameter `wordLists`
mapping a length to its list (`WORD_LISTS.get`, with a missing list
modelled as `[]`); `Math.random` becomes the oracle argument `pick`. -/

/-- `getRandomWord`: a uniformly picked entry of the list for the length,
or a thrown error (`none`) when no non-empty list exists. -/
def getRandomWord (wordLists : Nat → List String) (pick : Nat) (len : Nat) :
    Option String :=
  let words := wordLists len
  if h : words.length > 0 then
    some (words.get ⟨pick % words.length, Nat.mod_lt _ h⟩)
  else none

/-- `isValidWord`: case/accent-insensitive membership in the list whose
length matches the word. -/
def isValidWord (wordLists : Nat → List String) (word : String) : Bool :=
  let normalizedWord := normalizeStr word
  (wordLists word.length).any (fun w => normalizeStr w == normalizedWord)

/-! Configuration validation of `create_room`.  An absent field is
`none`; for the time limit, `some none` is a JavaScript `null` and an
absent field is `undefined` (the two are distinguished by the source's
`timeLimit === null` test). -/

/-- Roster replacement, used to phrase handler results compactly. -/
def withRoster (g : GameState) (ps : List PlayerState) : GameState := { g with players := ps }

/-- Status replacement, used to phrase handler results compactly. -/
def withStatus (g : GameState) (s : Status) : GameState := { g with status := s }

/-- A freshly joining player's record: empty history, ready, not timed
out, remaining time `timeLimit || -1`. -/
def newPlayer (sid playerName : String) (tl : Option Int) : PlayerState :=
  { id := sid, name := playerName, guesses := [], timeRemaining := jsOr tl (-1),
    isReady := true, isTimedOut := false }

/-- `Math.max(2, Math.min(5, maxPlayers || 2))`. -/
def validMaxPlayersOf (maxPlayers : Option Int) : Nat :=
  (max 2 (min 5 (jsOr maxPlayers 2))).toNat

/-- `[5, 6, 7].includes(wordLength || 5) ? (wordLength || 5) : 5`. -/
def validWordLengthOf (wordLength : Option Int) : Nat :=
  let w := jsOr wordLength 5
  if w == 5 ∨ w == 6 ∨ w == 7 then w.toNat else 5

/-- `timeLimit === null ? null : [30, 35, 60, 75, 90].includes(timeLimit
|| 30) ? (timeLimit || 30) : 30`. -/
def validTimeLimitOf (timeLimit : Option (Option Int)) : Option Int :=
  match timeLimit with
  | some none => none
  | some (some v) =>
    let t := if v == 0 then 30 else v
    some (if t == 30 ∨ t == 35 ∨ t == 60 ∨ t == 75 ∨ t == 90 then t else 30)
  | none => some 30

/-- The `create_room` handler.  `rid` is the generated room id, `pick`
the random draw for the solution, `now` the clock reading. -/
def create_room (wordLists : Nat → List String) (sid playerName : String)
    (maxPlayers wordLength : Option Int) (timeLimit : Option (Option Int))
    (rid : String) (pick : Nat) (now : Nat) (st : ServerState) : HandlerResult :=
  let vMax := validMaxPlayersOf maxPlayers
  let vLen := validWordLengthOf wordLength
  let vTime := validTimeLimitOf timeLimit
  match getRandomWord wordLists pick vLen with
  | none => ⟨st, [], true⟩
  | some solution =>
    let g : GameState :=
      { roomId := rid
        players := [newPlayer sid playerName vTime]
        maxPlayers := vMax, wordLength := vLen, timeLimit := vTime,
        status := Status.waiting, solution := solution, createdAt := now,
        rematchRequest := none }
    ⟨⟨setRoom st.gameRooms rid g, st.gameTimers⟩,
     [⟨Target.caller, "room_created", Payload.roomCreated rid⟩], false⟩

/-- The `join_room` handler. -/
def join_room (sid roomId playerName : String) (st : ServerState) : HandlerResult :=
  match findRoom st.gameRooms roomId with
  | none => ⟨st, [⟨Target.caller, "error", Payload.message "Oda bulunamadı!"⟩], false⟩
  | some g =>
    if g.players.any (fun p => p.id == sid) then
      ⟨st, [⟨Target.caller, "room_joined", Payload.state (sanitizeGameStateForClient g)⟩], false⟩
    else if g.players.length ≥ g.maxPlayers then
      ⟨st, [⟨Target.caller, "error", Payload.message "Oda dolu!"⟩], false⟩
    else if g.status ≠ Status.waiting then
      ⟨st, [⟨Target.caller, "error", Payload.message "Oyun zaten başlamış!"⟩], false⟩
    else
      let g1 := { g with players := g.players ++ [newPlayer sid playerName g.timeLimit] }
      let baseEmits : List Emit :=
        [⟨Target.caller, "room_joined", Payload.state (sanitizeGameStateForClient g1)⟩,
         ⟨Target.socketTo roomId, "player_joined",
          Payload.stateWithPlayerName (sanitizeGameStateForClient g1) playerName⟩]
      if g1.players.length = g1.maxPlayers then
        let g2 := { g1 with status := Status.playing }
        let r := startAllTimers roomId g2 st.gameTimers
        ⟨⟨setRoom st.gameRooms roomId r.1, r.2⟩,
         baseEmits ++ [⟨Target.ioTo roomId, "game_start",
           Payload.state (sanitizeGameStateForClient r.1)⟩], false⟩
      else
        ⟨⟨setRoom st.gameRooms roomId g1, st.gameTimers⟩, baseEmits, false⟩

/-- The `make_guess` handler.  The 5-minute deferred room cleanup of the
game-over path is a scheduled task outside the synchronous state change
modelled here. -/
def make_guess (wordLists : Nat → List String) (sid guess : String)
    (st : ServerState) : HandlerResult :=
  match findRoomByPlayer st.gameRooms sid with
  | none => ⟨st, [⟨Target.caller, "error", Payload.message "Oyun odası bulunamadı!"⟩], false⟩
  | some (userRoom, g) =>
    if g.status ≠ Status.playing then
      ⟨st, [⟨Target.caller, "error", Payload.message "Oyun aktif değil!"⟩], false⟩
    else if guess.length ≠ g.wordLength then
      ⟨st, [⟨Target.caller, "invalid_word",
        Payload.message ("Kelime " ++ toString g.wordLength ++ " harf olmalıdır!")⟩], false⟩
    else if !(isValidWord wordLists guess) then
      ⟨st, [⟨Target.caller, "invalid_word", Payload.message "Kelime listede bulunamadı!"⟩], false⟩
    else
      match g.players.find? (fun p => p.id == sid) with
      | none => ⟨st, [⟨Target.caller, "error", Payload.message "Oyuncu bulunamadı!"⟩], false⟩
      | some player =>
        if player.guesses.length ≥ 6 then
          ⟨st, [⟨Target.caller, "error", Payload.message "Tahmin hakkınız bitti!"⟩], false⟩
        else if player.isTimedOut then
          ⟨st, [⟨Target.caller, "error", Payload.message "Süreniz doldu! Tahmin yapamazsınız."⟩], false⟩
        else
          let feedback := evaluateGuess guess g.solution
          let entry : GuessEntry := ⟨String.mk (guess.data.map lowerChar), feedback⟩
          let ps1 := updateFirstPlayer g.players sid
            (fun q => { q with guesses := q.guesses ++ [entry] })
          let g1 := { g with players := ps1 }
          let isCorrect := feedback.all (fun f => f == Feedback.correct)
          let r := if isCorrect then (g1, st.gameTimers)
                   else startPlayerTimer userRoom sid g1 st.gameTimers
          let ge := checkGameEnd r.1
          if ge.1 then
            let g3 := { r.1 with status := Status.finished }
            ⟨⟨setRoom st.gameRooms userRoom g3, clearAllRoomTimers r.2 userRoom⟩,
             [⟨Target.ioTo userRoom, "game_over",
               Payload.endOfGame ge.2 g3.solution (sanitizeGameStateForClient g3)⟩], false⟩
          else
            ⟨⟨setRoom st.gameRooms userRoom r.1, r.2⟩,
             [⟨Target.ioTo userRoom, "update_state",
               Payload.state (sanitizeGameStateForClient r.1)⟩], false⟩

/-- `handlePlayerTimeout`: mark the player timed out, tell the player,
then either finish the game (clearing all the room's timers and
broadcasting `game_over` with the revealed solution) or broadcast the
updated state.  The source closure holds the `GameState` reference; while
the room is registered that is the registry entry, which is what the
lookup here returns. -/
def handlePlayerTimeout (rid pid : String) (st : ServerState) : HandlerResult :=
  match findRoom st.gameRooms rid with
  | none => ⟨st, [], false⟩
  | some g =>
    match g.players.find? (fun p => p.id == pid) with
    | none => ⟨st, [], false⟩
    | some _ =>
      let g1 := markTimedOut g pid
      let e1 : Emit := ⟨Target.ioTo pid, "player_timeout",
        Payload.message "Süreniz doldu! Tahmin yapamazsınız artık."⟩
      let ge := checkGameEnd g1
      if ge.1 then
        let g2 := { g1 with status := Status.finished }
        ⟨⟨setRoom st.gameRooms rid g2, clearAllRoomTimers st.gameTimers rid⟩,
         [e1, ⟨Target.ioTo rid, "game_over",
           Payload.endOfGame ge.2 g2.solution (sanitizeGameStateForClient g2)⟩], false⟩
      else
        ⟨⟨setRoom st.gameRooms rid g1, st.gameTimers⟩,
         [e1, ⟨Target.ioTo rid, "update_state",
           Payload.state (sanitizeGameStateForClient g1)⟩], false⟩

/-- One interval tick of a player's timer: decrement the remaining time,
notify that player, and on reaching zero cancel the interval and invoke
the timeout handler. -/
def timerTick (rid pid : String) (st : ServerState) : HandlerResult :=
  match findRoom st.gameRooms rid with
  | none => ⟨st, [], false⟩
  | some g =>
    match g.players.find? (fun p => p.id == pid) with
    | none => ⟨st, [], false⟩
    | some p =>
      let newTime := p.timeRemaining - 1
      let ps := updateFirstPlayer g.players pid
        (fun q => { q with timeRemaining := q.timeRemaining - 1 })
      let st1 : ServerState := ⟨setRoom st.gameRooms rid { g with players := ps }, st.gameTimers⟩
      let e1 : Emit := ⟨Target.ioTo pid, "timer_update", Payload.timer pid newTime⟩
      if newTime ≤ 0 then
        let st2 : ServerState := ⟨st1.gameRooms, clearPlayerTimer st1.gameTimers rid pid⟩
        let r := handlePlayerTimeout rid pid st2
        ⟨r.state, e1 :: r.emits, r.crashed⟩
      else ⟨st1, [e1], false⟩

/-- The `request_rematch` handler. -/
def request_rematch (sid : String) (st : ServerState) : HandlerResult :=
  match findRoomByPlayer st.gameRooms sid with
  | none => ⟨st, [⟨Target.caller, "error", Payload.message "Oyun odası bulunamadı!"⟩], false⟩
  | some (userRoom, g) =>
    if g.status ≠ Status.finished then
      ⟨st, [⟨Target.caller, "error", Payload.message "Oyun henüz bitmedi!"⟩], false⟩
    else if g.players.length ≠ g.maxPlayers then
      ⟨st, [⟨Target.caller, "error", Payload.message "Rövanş için tüm oyuncular gerekli!"⟩], false⟩
    else
      let g1 := { g with rematchRequest := some ⟨sid, true, none⟩ }
      let rName := (((g1.players.find? (fun p => p.id == sid)).map (·.name)).getD "Rakip")
      ⟨⟨setRoom st.gameRooms userRoom g1, st.gameTimers⟩,
       (g1.players.filter (fun p => !(p.id == sid))).map
         (fun p => ⟨Target.socketTo p.id, "rematch_requested", Payload.requesterNameOf rName⟩),
       false⟩

/-- The `accept_rematch` handler (its synchronous part: the 3-second
countdown that follows is the deferred task `rematchCountdownFinish`).
If the repository has no word list for the room's length, the
`accepted = true` mark has already been written when `getRandomWord`
throws. -/
def accept_rematch (wordLists : Nat → List String) (sid : String) (pick : Nat)
    (now : Nat) (st : ServerState) : HandlerResult :=
  match findRoomByPlayer st.gameRooms sid with
  | none => ⟨st, [⟨Target.caller, "error", Payload.message "Oyun odası bulunamadı!"⟩], false⟩
  | some (userRoom, g) =>
    match g.rematchRequest with
    | none => ⟨st, [⟨Target.caller, "error", Payload.message "Rövanş talebi bulunamadı!"⟩], false⟩
    | some req =>
      if !req.requested then
        ⟨st, [⟨Target.caller, "error", Payload.message "Rövanş talebi bulunamadı!"⟩], false⟩
      else if req.requesterId == sid then
        ⟨st, [⟨Target.caller, "error",
          Payload.message "Kendi rövanş talebinizi kabul edemezsiniz!"⟩], false⟩
      else
        let gAcc := { g with rematchRequest := some { req with accepted := some true } }
        match getRandomWord wordLists pick g.wordLength with
        | none => ⟨⟨setRoom st.gameRooms userRoom gAcc, st.gameTimers⟩, [], true⟩
        | some newSolution =>
          let ps := g.players.map (fun p =>
            { p with guesses := ([] : List GuessEntry),
                     timeRemaining := jsOr g.timeLimit (-1),
                     isReady := true, isTimedOut := false })
          let g1 := { g with
            solution := newSolution
            status := Status.playing
            createdAt := now
            rematchRequest := none
            players := ps }
          ⟨⟨setRoom st.gameRooms userRoom g1, st.gameTimers⟩,
           [⟨Target.ioTo userRoom, "rematch_accepted", Payload.empty⟩], false⟩

/-- One tick of the rematch countdown broadcast (seconds 3, 2, 1, 0). -/
def rematchCountdownEmit (rid : String) (n : Int) : Emit :=
  ⟨Target.ioTo rid, "rematch_countdown", Payload.seconds n⟩

/-- The end of the rematch countdown: start a timer for every player of
the captured game state and broadcast the fresh `game_start`. -/
def rematchCountdownFinish (rid : String) (g : GameState)
    (timers : List (String × String)) :
    (GameState × List (String × String)) × List Emit :=
  let r := startAllTimers rid g timers
  (r, [⟨Target.ioTo rid, "game_start", Payload.state (sanitizeGameStateForClient r.1)⟩])

/-- The `decline_rematch` handler. -/
def decline_rematch (sid : String) (st : ServerState) : HandlerResult :=
  match findRoomByPlayer st.gameRooms sid with
  | none => ⟨st, [⟨Target.caller, "error", Payload.message "Oyun odası bulunamadı!"⟩], false⟩
  | some (userRoom, g) =>
    match g.rematchRequest with
    | none => ⟨st, [⟨Target.caller, "error", Payload.message "Rövanş talebi bulunamadı!"⟩], false⟩
    | some req =>
      if !req.requested then
        ⟨st, [⟨Target.caller, "error", Payload.message "Rövanş talebi bulunamadı!"⟩], false⟩
      else
        let g1 := { g with rematchRequest := none }
        ⟨⟨setRoom st.gameRooms userRoom g1, st.gameTimers⟩,
         [⟨Target.socketTo req.requesterId, "rematch_declined", Payload.empty⟩], false⟩

/-- The `disconnect` handler: drop the player from the first room that
contains them; delete the room (cancelling all its timers) when it
becomes empty, otherwise cancel only the departing player's timer and
notify the rest of the room. -/
def disconnect (sid : String) (st : ServerState) : HandlerResult :=
  match findRoomByPlayer st.gameRooms sid with
  | none => ⟨st, [], false⟩
  | some (rid, g) =>
    let remaining := removeFirstPlayer g.players sid
    if remaining.length = 0 then
      ⟨⟨deleteRoom st.gameRooms rid, clearAllRoomTimers st.gameTimers rid⟩, [], false⟩
    else
      let g1 := { g with players := remaining }
      ⟨⟨setRoom st.gameRooms rid g1, clearPlayerTimer st.gameTimers rid sid⟩,
       [⟨Target.ioTo rid, "player_left", Payload.state (sanitizeGameStateForClient g1)⟩], false⟩

/-- The solution data contained in a payload: only the game-over payload
carries any. -/
def payloadSolution : Payload → Option String
  | Payload.endOfGame _ sol _ => some sol
  | _ => none

/-- Well-formedness of one emission with respect to solution secrecy:
a `game_over` event carries the end-of-game payload (winner identity or
null, revealed solution, sanitized state); every other event's payload
carries no solution at all. -/
def emitOkB (e : Emit) : Bool :=
  if e.event == "game_over" then
    (match e.payload with
     | Payload.endOfGame _ _ _ => true
     | _ => false)
  else (payloadSolution e.payload).isNone

/-- The two caller-directed failure events of the error taxonomy. -/
def isErrorEmit (e : Emit) : Bool := e.event == "error" || e.event == "invalid_word"

/-! Concrete states used by witnesses and counterexamples below. -/

def c3Room : GameState :=
  { roomId := "R", players := [newPlayer "s1" "alice" (some 30)], maxPlayers := 2,
    wordLength := 5, timeLimit := some 30, status := Status.waiting, solution := "kapak",
    createdAt := 0, rematchRequest := none }

def c3St : ServerState := ⟨[("R", c3Room)], []⟩

def c2Winner : PlayerState :=
  { id := "w", name := "w",
    guesses := [⟨"kapak", List.replicate 5 Feedback.correct⟩],
    timeRemaining := 0, isReady := true, isTimedOut := true }

def c2Room : GameState :=
  { roomId := "R", players := [c2Winner], maxPlayers := 2, wordLength := 5,
    timeLimit := some 30, status := Status.playing, solution := "kapak",
    createdAt := 0, rematchRequest := none }

def c2Quiet (i : String) : PlayerState :=
  { id := i, name := i, guesses := [], timeRemaining := 0, isReady := true,
    isTimedOut := true }

def c2DrawRoom : GameState :=
  { roomId := "R", players := [c2Quiet "a", c2Quiet "b"], maxPlayers := 2, wordLength := 5,
    timeLimit := some 30, status := Status.playing, solution := "kapak",
    createdAt := 0, rematchRequest := none }

def c2OpenRoom : GameState :=
  { roomId := "R", players := [c2Quiet "a", newPlayer "b" "bn" (some 30)], maxPlayers := 2,
    wordLength := 5, timeLimit := some 30, status := Status.playing, solution := "kapak",
    createdAt := 0, rematchRequest := none }

def c4Entry : GuessEntry := ⟨"salon", List.replicate 5 Feedback.absent⟩

def c4Player : PlayerState :=
  { id := "s1", name := "n", guesses := List.replicate 6 c4Entry, timeRemaining := 30,
    isReady := true, isTimedOut := false }

def c4Room : GameState :=
  { roomId := "R", players := [c4Player], maxPlayers := 2, wordLength := 5,
    timeLimit := some 30, status := Status.playing, solution := "kapak",
    createdAt := 0, rematchRequest := none }

def c4St : ServerState := ⟨[("R", c4Room)], []⟩

def c4Words : Nat → List String := fun n => if n = 5 then ["kapak"] else []

def c6Player (i : String) : PlayerState :=
  { id := i, name := i, guesses := [c4Entry], timeRemaining := 0, isReady := true,
    isTimedOut := true }

def c6Room : GameState :=
  { roomId := "R", players := [c6Player "s1", c6Player "s2"], maxPlayers := 2,
    wordLength := 5, timeLimit := some 30, status := Status.finished, solution := "salon",
    createdAt := 0, rematchRequest := some ⟨"s1", true, none⟩ }

def c6St : ServerState := ⟨[("R", c6Room)], []⟩

def c9St : ServerState := ⟨[("R", c3Room)], [("R", "s1")]⟩

def c8St : ServerState := ⟨[], []⟩

/-! Lemmas about the two passes of the evaluator. -/

theorem pass1_fst_length (s : List Char) : ∀ g, (pass1 g s).1.length = s.length := by
  induction s with
  | nil => intro g; cases g <;> simp [pass1]
  | cons sc ss ih =>
    intro g
    cases g with
    | nil => simp [pass1, ih]
    | cons gc gs =>
      by_cases h : gc = sc <;> simp [pass1, h, ih]

theorem pass2_length (f : List (Option Feedback)) :
    ∀ g s, (pass2 g f s).length = f.length := by
  induction f with
  | nil => intro g s; cases g <;> simp [pass2]
  | cons fb fs ih =>
    intro g s
    cases fb with
    | some x => simp [pass2, ih]
    | none =>
      cases g with
      | nil => simp [pass2, ih]
      | cons gc gs =>
        simp only [pass2]
        cases h : consume gc s <;> simp [ih]

/-- First-pass bookkeeping: for any character other than the consumed
marker, the `correct` labels plus the survivors in the marked solution
account exactly for the occurrences in the original solution. -/
theorem pass1_count (c : Char) (hc : c ≠ '*') (s : List Char) :
    ∀ g, countCorr1 c g (pass1 g s).1 + countc c (pass1 g s).2 = countc c s := by
  have hstar : ¬ ('*' = c) := fun hs => hc hs.symm
  induction s with
  | nil => intro g; cases g <;> simp [pass1, countCorr1, countc]
  | cons sc ss ih =>
    intro g
    cases g with
    | nil =>
      have h := ih []
      simp only [pass1, countCorr1, countc] at *
      omega
    | cons gc gs =>
      have h := ih gs
      by_cases hgs : gc = sc
      · by_cases hgc : gc = c
        · have hsc : sc = c := hgs ▸ hgc
          simp only [pass1, if_pos hgs, countCorr1, countc, hgc, hsc, hstar] at *
          simp only [and_true, if_pos rfl, if_neg hstar] at *
          omega
        · have hsc : ¬ (sc = c) := fun hh => hgc (hgs.trans hh)
          simp only [pass1, if_pos hgs, countCorr1, countc] at *
          simp only [and_true, if_neg hgc, if_neg hsc, if_neg hstar] at *
          omega
      · have hcorr : ¬ (gc = c ∧ (none : Option Feedback) = some Feedback.correct) := by
          simp
        by_cases hsc : sc = c
        · simp only [pass1, if_neg hgs, countCorr1, countc, if_pos hsc, if_neg hcorr] at *
          omega
        · simp only [pass1, if_neg hgs, countCorr1, countc, if_neg hsc, if_neg hcorr] at *
          omega

theorem consume_count_self (c : Char) (hc : c ≠ '*') :
    ∀ s s', consume c s = some s' → countc c s' + 1 = countc c s := by
  have hstar : ¬ ('*' = c) := fun hs => hc hs.symm
  intro s
  induction s with
  | nil => intro s' h; simp [consume] at h
  | cons x xs ih =>
    intro s' h
    by_cases hx : x = c
    · simp only [consume, if_pos hx] at h
      cases h
      simp [countc, hx, hstar]
      omega
    · simp only [consume, if_neg hx] at h
      cases hcs : consume c xs with
      | none => simp [hcs] at h
      | some t =>
        simp only [hcs, Option.map_some'] at h
        cases h
        simp only [countc]
        have := ih t hcs
        omega

theorem consume_count_other (c d : Char) (hc : c ≠ '*') (hd : d ≠ c) :
    ∀ s s', consume d s = some s' → countc c s' = countc c s := by
  have hstar : ¬ ('*' = c) := fun hs => hc hs.symm
  intro s
  induction s with
  | nil => intro s' h; simp [consume] at h
  | cons x xs ih =>
    intro s' h
    by_cases hx : x = d
    · simp only [consume, if_pos hx] at h
      cases h
      have hxc : ¬ (x = c) := fun hh => hd (hx ▸ hh)
      simp [countc, hxc, hstar]
    · simp only [consume, if_neg hx] at h
      cases hcs : consume d xs with
      | none => simp [hcs] at h
      | some t =>
        simp only [hcs, Option.map_some'] at h
        cases h
        simp only [countc]
        rw [ih t hcs]

/-- The first pass only ever writes `correct` labels. -/
theorem pass1_entries (s : List Char) :
    ∀ g e, e ∈ (pass1 g s).1 → e = none ∨ e = some Feedback.correct := by
  induction s with
  | nil =>
    intro g e h
    cases g <;> simp [pass1] at h
  | cons sc ss ih =>
    intro g e h
    cases g with
    | nil =>
      simp only [pass1, List.mem_cons] at h
      rcases h with h | h
      · exact Or.inl h
      · exact ih [] e h
    | cons gc gs =>
      by_cases hgs : gc = sc
      · simp only [pass1, if_pos hgs, List.mem_cons] at h
        rcases h with h | h
        · exact Or.inr h
        · exact ih gs e h
      · simp only [pass1, if_neg hgs, List.mem_cons] at h
        rcases h with h | h
        · exact Or.inl h
        · exact ih gs e h

/-- The second pass preserves the first-pass `correct` labels and adds
no new ones. -/
theorem pass2_corr (c : Char) (f : List (Option Feedback)) :
    ∀ g s, countCorrF c g (pass2 g f s) = countCorr1 c g f := by
  induction f with
  | nil => intro g s; cases g <;> simp [pass2, countCorrF, countCorr1]
  | cons fb fs ih =>
    intro g s
    cases fb with
    | some x =>
      cases g with
      | nil => simp [pass2, countCorrF, countCorr1]
      | cons gc gs => simp [pass2, countCorrF, countCorr1, ih]
    | none =>
      cases g with
      | nil => simp [pass2, countCorrF, countCorr1]
      | cons gc gs =>
        simp only [pass2]
        cases h : consume gc s with
        | some s' => simp [countCorrF, countCorr1, ih]
        | none => simp [countCorrF, countCorr1, ih]

/-- Second-pass bound: `present` labels at positions holding `c` consume
distinct unconsumed occurrences of `c` in the marked solution, provided
`c` is not the marker and the partial feedback never says `present`. -/
theorem pass2_pres (c : Char) (hc : c ≠ '*') (f : List (Option Feedback))
    (hf : ∀ e ∈ f, e ≠ some Feedback.present) :
    ∀ g s, countPresF c g (pass2 g f s) ≤ countc c s := by
  induction f with
  | nil => intro g s; cases g <;> simp [pass2, countPresF]
  | cons fb fs ih =>
    have hfs : ∀ e ∈ fs, e ≠ some Feedback.present := by
      intro e he
      exact hf e (List.mem_cons_of_mem _ he)
    intro g s
    cases fb with
    | some x =>
      have hx : x ≠ Feedback.present := by
        intro hxx
        exact hf (some x) (List.mem_cons_self _ _) (by rw [hxx])
      cases g with
      | nil => simp [pass2, countPresF]
      | cons gc gs =>
        simp only [pass2, List.tail_cons, countPresF]
        have : ¬ (gc = c ∧ x = Feedback.present) := fun hcon => hx hcon.2
        rw [if_neg this]
        simpa using ih hfs gs s
    | none =>
      cases g with
      | nil => simp [pass2, countPresF]
      | cons gc gs =>
        simp only [pass2]
        cases h : consume gc s with
        | some s' =>
          simp only [countPresF]
          by_cases hgc : gc = c
          · have hcons : consume c s = some s' := hgc ▸ h
            have h1 := consume_count_self c hc s s' hcons
            have h2 := ih hfs gs s'
            simp only [hgc, and_true, if_pos trivial]
            omega
          · rw [if_neg (fun hcon => hgc hcon.1)]
            have h1 := consume_count_other c gc hc (fun hd => hgc hd) s s' h
            have h2 := ih hfs gs s'
            omega
        | none =>
          simp only [countPresF]
          have hne : ¬ (gc = c ∧ Feedback.absent = Feedback.present) := by simp
          rw [if_neg hne]
          simpa using ih hfs gs s

/-- Splitting the correct-or-present count into its two label counts. -/
theorem countCP_split (c : Char) : ∀ (g : List Char) (l : List Feedback),
    countCP c g l = countCorrF c g l + countPresF c g l := by
  intro g
  induction g with
  | nil => intro l; cases l <;> simp [countCP, countCorrF, countPresF]
  | cons gc gs ih =>
    intro l
    cases l with
    | nil => simp [countCP, countCorrF, countPresF]
    | cons fb fs =>
      simp only [countCP, countCorrF, countPresF, ih fs]
      cases fb <;> by_cases hgc : gc = c <;> simp [hgc] <;> omega

/-- Core duplicate-letter bound for the evaluator, over arbitrary
character lists: for any character other than the consumed marker `'*'`,
the `correct` + `present` labels at positions holding that character
never exceed its occurrence count in the solution. -/
theorem evalCore_dup_bound (c : Char) (hc : c ≠ '*') (g s : List Char) :
    countCP c g (evalCore g s) ≤ countc c s := by
  have h1 := pass1_count c hc s g
  have h2 := pass2_corr c (pass1 g s).1 g (pass1 g s).2
  have h3 := pass2_pres c hc (pass1 g s).1 (fun e he => by
    rcases pass1_entries s g e he with h | h <;> simp [h]) g (pass1 g s).2
  have h4 := countCP_split c g (evalCore g s)
  simp only [evalCore] at *
  omega

theorem pass1_take (s : List Char) : ∀ g, pass1 (g.take s.length) s = pass1 g s := by
  induction s with
  | nil => intro g; cases g <;> simp [pass1]
  | cons sc ss ih =>
    intro g
    cases g with
    | nil => simp
    | cons gc gs =>
      simp only [List.length_cons, List.take_succ_cons, pass1, ih gs]

theorem pass2_take (f : List (Option Feedback)) :
    ∀ g s, pass2 (g.take f.length) f s = pass2 g f s := by
  induction f with
  | nil => intro g s; cases g <;> simp [pass2]
  | cons fb fs ih =>
    intro g s
    cases fb with
    | some x =>
      cases g with
      | nil => simp [pass2, ih]
      | cons gc gs =>
        simp only [List.length_cons, List.take_succ_cons, pass2, List.tail_cons, ih gs]
    | none =>
      cases g with
      | nil => simp [pass2, ih]
      | cons gc gs =>
        simp only [List.length_cons, List.take_succ_cons, pass2]
        cases h : consume gc s <;> simp [ih]

/-- Solution positions beyond the guess length are left unlabeled by the
first pass: the guess letter there is JavaScript `undefined`. -/
theorem pass1_get_none (s : List Char) :
    ∀ g i, g.length ≤ i → i < s.length → (pass1 g s).1.get? i = some none := by
  induction s with
  | nil => intro g i h1 h2; simp at h2
  | cons sc ss ih =>
    intro g i h1 h2
    cases g with
    | nil =>
      cases i with
      | zero => simp [pass1]
      | succ j =>
        simp only [pass1, List.get?]
        exact ih [] j (by simp) (by simpa using h2)
    | cons gc gs =>
      cases i with
      | zero => simp at h1
      | succ j =>
        have h1' : gs.length ≤ j := by simpa using h1
        have h2' : j < ss.length := by simpa using h2
        by_cases hgs : gc = sc
        · simp only [pass1, if_pos hgs, List.get?]
          exact ih gs j h1' h2'
        · simp only [pass1, if_neg hgs, List.get?]
          exact ih gs j h1' h2'

/-- Positions beyond the guess length that the first pass left unlabeled
come out `absent` from the second pass. -/
theorem pass2_get_absent (f : List (Option Feedback)) :
    ∀ g s i, g.length ≤ i → f.get? i = some none →
      (pass2 g f s).get? i = some Feedback.absent := by
  induction f with
  | nil => intro g s i h1 h2; simp [List.get?] at h2
  | cons fb fs ih =>
    intro g s i h1 h2
    cases fb with
    | some x =>
      cases i with
      | zero => simp [List.get?] at h2
      | succ j =>
        simp only [pass2, List.get?]
        have h1' : g.tail.length ≤ j := by
          cases g with
          | nil => simp
          | cons gc gs => simp at h1 ⊢; omega
        exact ih g.tail s j h1' (by simpa [List.get?] using h2)
    | none =>
      cases g with
      | nil =>
        cases i with
        | zero => simp [pass2, List.get?]
        | succ j =>
          simp only [pass2, List.get?]
          exact ih [] s j (by simp) (by simpa [List.get?] using h2)
      | cons gc gs =>
        cases i with
        | zero => simp at h1
        | succ j =>
          have h1' : gs.length ≤ j := by simp at h1; omega
          have h2' : fs.get? j = some none := by simpa [List.get?] using h2
          simp only [pass2]
          cases h : consume gc s with
          | some s' =>
            simp only [List.get?]
            exact ih gs s' j h1' h2'
          | none =>
            simp only [List.get?]
            exact ih gs s j h1' h2'

/-! Registry and roster lemmas. -/

theorem findRoom_setRoom_self (rooms : List (String × GameState)) (rid : String)
    (g : GameState) : findRoom (setRoom rooms rid g) rid = some g := by
  by_cases h : rooms.any (fun p => p.1 == rid)
  · simp only [setRoom, if_pos h]
    induction rooms with
    | nil => simp at h
    | cons r rs ih =>
      by_cases hr : r.1 == rid
      · simp [findRoom, List.find?, hr]
      · simp only [List.any_cons, hr, Bool.false_or] at h
        simp only [List.map_cons, if_neg (by simpa using hr)]
        simpa [findRoom, List.find?, hr] using ih h
  · simp only [setRoom, if_neg h]
    induction rooms with
    | nil => simp [findRoom, List.find?]
    | cons r rs ih =>
      simp only [List.any_cons, Bool.or_eq_true, not_or] at h
      simp only [List.cons_append]
      simp only [findRoom, List.find?] at ih ⊢
      rw [Bool.not_eq_true] at h
      simp only [h.1]
      exact ih (by simpa using h.2)

theorem mem_setRoom (rooms : List (String × GameState)) (rid : String)
    (g : GameState) (r : String × GameState) (h : r ∈ setRoom rooms rid g) :
    r ∈ rooms ∨ r = (rid, g) := by
  by_cases ha : rooms.any (fun p => p.1 == rid)
  · simp only [setRoom, if_pos ha, List.mem_map] at h
    obtain ⟨p, hp, hpr⟩ := h
    by_cases hpid : p.1 == rid
    · right; rw [if_pos hpid] at hpr; exact hpr.symm
    · left; rw [if_neg hpid] at hpr; exact hpr ▸ hp
  · simp only [setRoom, if_neg ha, List.mem_append, List.mem_singleton] at h
    exact h

theorem findRoom_deleteRoom (rooms : List (String × GameState)) (rid : String) :
    findRoom (deleteRoom rooms rid) rid = none := by
  simp only [findRoom, Option.map_eq_none']
  rw [List.find?_eq_none]
  intro p hp
  simp only [deleteRoom, List.mem_filter] at hp
  simpa using hp.2

/-- Members of the first-match update: either an untouched original or
the image of the first matching entry. -/
theorem mem_updateFirstPlayer (ps : List PlayerState) (pid : String)
    (f : PlayerState → PlayerState) :
    ∀ q' ∈ updateFirstPlayer ps pid f,
      q' ∈ ps ∨ ∃ q, ps.find? (fun x => x.id == pid) = some q ∧ q' = f q := by
  induction ps with
  | nil => intro q' h; simp [updateFirstPlayer] at h
  | cons p rest ih =>
    intro q' h
    by_cases hp : p.id == pid
    · simp only [updateFirstPlayer, if_pos hp, List.mem_cons] at h
      rcases h with h | h
      · exact Or.inr ⟨p, by simp [List.find?, hp], h⟩
      · exact Or.inl (List.mem_cons_of_mem _ h)
    · simp only [updateFirstPlayer, if_neg hp, List.mem_cons] at h
      rcases h with h | h
      · exact Or.inl (h ▸ List.mem_cons_self _ _)
      · rcases ih q' h with h' | ⟨q, hq, hq'⟩
        · exact Or.inl (List.mem_cons_of_mem _ h')
        · exact Or.inr ⟨q, by simp [List.find?, hp, hq], hq'⟩

/-- Entries that do not match the id are untouched by the
everywhere-update. -/
theorem map_update_no_match (pid : String) (f : PlayerState → PlayerState) :
    ∀ ps : List PlayerState, (∀ q ∈ ps, ¬ (q.id == pid) = true) →
      ps.map (fun q => if q.id == pid then f q else q) = ps := by
  intro ps
  induction ps with
  | nil => intro _; simp
  | cons r rs ih =>
    intro h
    simp only [List.map_cons]
    rw [if_neg (h r (List.mem_cons_self _ _)),
      ih (fun q hq => h q (List.mem_cons_of_mem _ hq))]

/-- Under unique roster ids, the first-match update coincides with the
everywhere-update. -/
theorem updateFirstPlayer_eq_map (pid : String) (f : PlayerState → PlayerState) :
    ∀ ps : List PlayerState, (ps.map (·.id)).Nodup →
      updateFirstPlayer ps pid f = ps.map (fun q => if q.id == pid then f q else q) := by
  intro ps
  induction ps with
  | nil => intro _; simp [updateFirstPlayer]
  | cons p rest ih =>
    intro hnd
    simp only [List.map_cons, List.nodup_cons] at hnd
    by_cases hp : (p.id == pid) = true
    · have hpidp : p.id = pid := by simpa using hp
      have hnomatch : ∀ q ∈ rest, ¬ (q.id == pid) = true := by
        intro q hq hqid
        have hqq : q.id = pid := by simpa using hqid
        apply hnd.1
        rw [hpidp, ← hqq]
        exact List.mem_map_of_mem (·.id) hq
      simp only [updateFirstPlayer, List.map_cons]
      rw [if_pos hp, if_pos hp, map_update_no_match pid f rest hnomatch]
    · simp only [updateFirstPlayer, List.map_cons]
      rw [if_neg hp, if_neg hp, ih hnd.2]

/-! Timer manager lemmas. -/

theorem startPlayerTimer_fst_fields (rid pid : String) (g : GameState)
    (timers : List (String × String)) :
    (startPlayerTimer rid pid g timers).1
      = { g with players := (startPlayerTimer rid pid g timers).1.players } := by
  cases hf : g.players.find? (fun p => p.id == pid) with
  | none => simp [startPlayerTimer, hf]
  | some p =>
    by_cases hto : p.isTimedOut = true
    · simp [startPlayerTimer, hf, hto]
    · cases htl : g.timeLimit with
      | none => simp [startPlayerTimer, hf, hto, htl]
      | some t => simp [startPlayerTimer, hf, hto, htl]

theorem mem_startPlayerTimer_timers (rid pid : String) (g : GameState)
    (timers : List (String × String)) (ab : String × String) (h : ab ∈ timers) :
    ab ∈ (startPlayerTimer rid pid g timers).2 := by
  cases hf : g.players.find? (fun p => p.id == pid) with
  | none => simpa [startPlayerTimer, hf] using h
  | some p =>
    by_cases hto : p.isTimedOut = true
    · simpa [startPlayerTimer, hf, hto] using h
    · cases htl : g.timeLimit with
      | none => simpa [startPlayerTimer, hf, hto, htl] using h
      | some t =>
        simp only [startPlayerTimer, hf, hto, htl, Bool.false_eq_true, if_false]
        apply List.mem_append.2
        rcases ab with ⟨a, b⟩
        by_cases ha : a = rid
        · by_cases hb : b = pid
          · right; simp [ha, hb]
          · left
            simp only [clearPlayerTimer, List.mem_filter]
            exact ⟨h, by simp [ha, hb]⟩
        · left
          simp only [clearPlayerTimer, List.mem_filter]
          exact ⟨h, by simp [ha]⟩

theorem mem_startTimersFor_timers (rid : String) (ids : List String) :
    ∀ g timers ab, ab ∈ timers → ab ∈ (startTimersFor rid ids g timers).2 := by
  induction ids with
  | nil => intro g timers ab h; simpa [startTimersFor] using h
  | cons pid rest ih =>
    intro g timers ab h
    simp only [startTimersFor]
    exact ih _ _ ab (mem_startPlayerTimer_timers rid pid g timers ab h)

/-- Fields other than the roster survive the everywhere-update. -/
theorem map_field_update {α : Type} (φ : PlayerState → α) (pid : String)
    (f : PlayerState → PlayerState) (hfp : ∀ q, φ (f q) = φ q) :
    ∀ ps : List PlayerState,
      (ps.map (fun q => if q.id == pid then f q else q)).map φ = ps.map φ := by
  intro ps
  induction ps with
  | nil => simp
  | cons p rest ih =>
    simp only [List.map_cons, ih, List.cons.injEq, and_true]
    by_cases hp : (p.id == pid) = true
    · rw [if_pos hp, hfp]
    · rw [if_neg hp]

/-- One `startPlayerTimer` call on a well-formed roster: ids are
unchanged, nobody is newly timed out, players with a different id are
untouched, and the targeted player gets the configured remaining time
(plus a live interval when a limit is set). -/
theorem startPlayerTimer_step (rid pid : String) (g : GameState)
    (timers : List (String × String))
    (hnd : (g.players.map (·.id)).Nodup)
    (hnto : ∀ p ∈ g.players, p.isTimedOut = false) :
    (startPlayerTimer rid pid g timers).1.players.map (·.id) = g.players.map (·.id)
    ∧ (∀ p' ∈ (startPlayerTimer rid pid g timers).1.players, p'.isTimedOut = false)
    ∧ (∀ p' ∈ (startPlayerTimer rid pid g timers).1.players, p'.id ≠ pid → p' ∈ g.players)
    ∧ (∀ p' ∈ (startPlayerTimer rid pid g timers).1.players, p'.id = pid →
        (∀ t, g.timeLimit = some t →
          p'.timeRemaining = t ∧ (rid, pid) ∈ (startPlayerTimer rid pid g timers).2)
        ∧ (g.timeLimit = none → p'.timeRemaining = -1)) := by
  cases hf : g.players.find? (fun p => p.id == pid) with
  | none =>
    refine ⟨by simp [startPlayerTimer, hf], ?_, ?_, ?_⟩
    · intro p' hp'; exact hnto p' (by simpa [startPlayerTimer, hf] using hp')
    · intro p' hp' _; simpa [startPlayerTimer, hf] using hp'
    · intro p' hp' hid
      have hmem : p' ∈ g.players := by simpa [startPlayerTimer, hf] using hp'
      have := List.find?_eq_none.1 hf p' hmem
      simp [hid] at this
  | some p =>
    have hpmem : p ∈ g.players := List.mem_of_find?_eq_some hf
    have hto : ¬ p.isTimedOut = true := by rw [hnto p hpmem]; simp
    cases htl : g.timeLimit with
    | none =>
      have hres : (startPlayerTimer rid pid g timers)
          = ({ g with players := updateFirstPlayer g.players pid (setTR (-1)) }, timers) := by
        simp [startPlayerTimer, hf, hto, htl]
      rw [hres]
      dsimp only
      rw [updateFirstPlayer_eq_map pid (setTR (-1)) g.players hnd]
      refine ⟨map_field_update (·.id) pid (setTR (-1)) (fun q => rfl) g.players, ?_, ?_, ?_⟩
      · intro p' hp'
        obtain ⟨q, hq, hq'⟩ := List.mem_map.1 hp'
        by_cases hqid : (q.id == pid) = true
        · rw [if_pos hqid] at hq'; rw [← hq']; exact hnto q hq
        · rw [if_neg hqid] at hq'; rw [← hq']; exact hnto q hq
      · intro p' hp' hid
        obtain ⟨q, hq, hq'⟩ := List.mem_map.1 hp'
        by_cases hqid : (q.id == pid) = true
        · rw [if_pos hqid] at hq'
          exact absurd (by rw [← hq']; simpa [setTR] using hqid) hid
        · rw [if_neg hqid] at hq'; rw [← hq']; exact hq
      · intro p' hp' hid
        obtain ⟨q, hq, hq'⟩ := List.mem_map.1 hp'
        by_cases hqid : (q.id == pid) = true
        · rw [if_pos hqid] at hq'
          exact ⟨fun t ht => absurd ht (by simp),
                 fun _ => by rw [← hq']; simp [setTR]⟩
        · rw [if_neg hqid] at hq'
          exact absurd (by rw [hq', hid]; simp) hqid
    | some t =>
      have hres : (startPlayerTimer rid pid g timers)
          = ({ g with players := updateFirstPlayer g.players pid (setTR t) },
             clearPlayerTimer timers rid pid ++ [(rid, pid)]) := by
        simp [startPlayerTimer, hf, hto, htl]
      rw [hres]
      dsimp only
      rw [updateFirstPlayer_eq_map pid (setTR t) g.players hnd]
      refine ⟨map_field_update (·.id) pid (setTR t) (fun q => rfl) g.players, ?_, ?_, ?_⟩
      · intro p' hp'
        obtain ⟨q, hq, hq'⟩ := List.mem_map.1 hp'
        by_cases hqid : (q.id == pid) = true
        · rw [if_pos hqid] at hq'; rw [← hq']; exact hnto q hq
        · rw [if_neg hqid] at hq'; rw [← hq']; exact hnto q hq
      · intro p' hp' hid
        obtain ⟨q, hq, hq'⟩ := List.mem_map.1 hp'
        by_cases hqid : (q.id == pid) = true
        · rw [if_pos hqid] at hq'
          exact absurd (by rw [← hq']; simpa [setTR] using hqid) hid
        · rw [if_neg hqid] at hq'; rw [← hq']; exact hq
      · intro p' hp' hid
        obtain ⟨q, hq, hq'⟩ := List.mem_map.1 hp'
        by_cases hqid : (q.id == pid) = true
        · rw [if_pos hqid] at hq'
          refine ⟨fun t' ht' => ?_, fun hnone => absurd hnone (by simp)⟩
          have htt := Option.some.inj ht'
          constructor
          · rw [← hq']; simp [setTR, htt]
          · simp
        · rw [if_neg hqid] at hq'
          exact absurd (by rw [hq', hid]; simp) hqid

/-- The `forEach`-driven timer start over a list of roster ids, on a
roster with unique ids and nobody timed out: status and time limit are
untouched, ids and the not-timed-out property are preserved, players
whose id is not in the list are untouched, and every player whose id is
in the list ends with the configured remaining time and (when a limit is
set) a live interval. -/
theorem startTimersFor_spec (rid : String) (ids : List String) :
    ∀ (g : GameState) (timers : List (String × String)),
      (g.players.map (·.id)).Nodup →
      (∀ p ∈ g.players, p.isTimedOut = false) →
      ((startTimersFor rid ids g timers).1.status = g.status
        ∧ (startTimersFor rid ids g timers).1.timeLimit = g.timeLimit)
      ∧ (startTimersFor rid ids g timers).1.players.map (·.id) = g.players.map (·.id)
      ∧ (∀ p' ∈ (startTimersFor rid ids g timers).1.players, p'.isTimedOut = false)
      ∧ (∀ p' ∈ (startTimersFor rid ids g timers).1.players, p'.id ∉ ids → p' ∈ g.players)
      ∧ (∀ p' ∈ (startTimersFor rid ids g timers).1.players, p'.id ∈ ids →
          (∀ t, g.timeLimit = some t →
            p'.timeRemaining = t ∧ (rid, p'.id) ∈ (startTimersFor rid ids g timers).2)
          ∧ (g.timeLimit = none → p'.timeRemaining = -1)) := by
  induction ids with
  | nil =>
    intro g timers hnd hnto
    refine ⟨⟨rfl, rfl⟩, rfl, ?_, ?_, ?_⟩
    · intro p' hp'; exact hnto p' hp'
    · intro p' hp' _; exact hp'
    · intro p' hp' hin; simp at hin
  | cons pid rest ih =>
    intro g timers hnd hnto
    have hunf : startTimersFor rid (pid :: rest) g timers
        = startTimersFor rid rest (startPlayerTimer rid pid g timers).1
            (startPlayerTimer rid pid g timers).2 := rfl
    obtain ⟨hA, hB, hC, hD⟩ := startPlayerTimer_step rid pid g timers hnd hnto
    have hfields := startPlayerTimer_fst_fields rid pid g timers
    have hst1 : (startPlayerTimer rid pid g timers).1.status = g.status := by
      rw [hfields]
    have htl1 : (startPlayerTimer rid pid g timers).1.timeLimit = g.timeLimit := by
      rw [hfields]
    have hnd1 : ((startPlayerTimer rid pid g timers).1.players.map (·.id)).Nodup := by
      rw [hA]; exact hnd
    obtain ⟨⟨iha1, iha2⟩, ihb, ihc, ihd, ihe⟩ :=
      ih (startPlayerTimer rid pid g timers).1 (startPlayerTimer rid pid g timers).2 hnd1 hB
    rw [hunf]
    refine ⟨⟨by rw [iha1, hst1], by rw [iha2, htl1]⟩, by rw [ihb, hA], ihc, ?_, ?_⟩
    · intro p' hp' hnin
      simp only [List.mem_cons, not_or] at hnin
      exact hC p' (ihd p' hp' hnin.2) hnin.1
    · intro p' hp' hin
      by_cases hrest : p'.id ∈ rest
      · have := ihe p' hp' hrest
        rw [iha2, htl1] at *
        rw [htl1] at this
        exact this
      · have hpid : p'.id = pid := by
          rcases List.mem_cons.1 hin with h | h
          · exact h
          · exact absurd h hrest
        have hstep := hD p' (ihd p' hp' hrest) hpid
        refine ⟨fun t ht => ?_, fun hnone => (hstep.2 hnone)⟩
        obtain ⟨htr, htimer⟩ := hstep.1 t ht
        refine ⟨htr, ?_⟩
        rw [hpid]
        exact mem_startTimersFor_timers rid rest _ _ _ htimer

/-- Claim C1, as literally stated, is false: the evaluator marks consumed
solution slots with the character `'*'`, so a guess containing a literal
`'*'` can be told `present` against a slot that was consumed in pass one
rather than against a real `'*'` of the solution.  With solution "ab" and
guess "a*" (equal length), the position holding `'*'` is labeled
`present`, yet `'*'` occurs zero times in the solution. -/
theorem c1_counterexample :
    ¬ (∀ (G S : String), G.length = S.length → ∀ c : Char,
        countCP c (normalize G.data) (evaluateGuess G S) ≤ countc c (normalize S.data)) :=
  fun h => absurd (h "a*" "ab" (by decide) '*') (by decide)

/-- Claim C1 (amended): for every solution S and guess G of equal length,
and for any letter other than the evaluator-internal consumed marker
`'*'`, the number of positions of G holding that letter (after the
evaluator's case/accent normalization) and labeled `correct` or `present`
never exceeds that letter's occurrence count in the normalized S. -/
theorem c1_duplicate_letter_bound (G S : String) (hlen : G.length = S.length)
    (c : Char) (hc : c ≠ '*') :
    countCP c (normalize G.data) (evaluateGuess G S) ≤ countc c (normalize S.data) :=
  evalCore_dup_bound c hc (normalize G.data) (normalize S.data)

/-- Witness for C1 at the spec's own scenario: solution "kapak", guess
"kabak", letter k. -/
theorem c1_witness :
    ("kabak" : String).length = ("kapak" : String).length
    ∧ countCP 'k' (normalize ("kabak" : String).data) (evaluateGuess "kabak" "kapak")
        ≤ countc 'k' (normalize ("kapak" : String).data) :=
  ⟨by decide, c1_duplicate_letter_bound "kabak" "kapak" (by decide) 'k' (by decide)⟩

/-- Claim C10: the evaluator is total over inputs of any lengths: the
feedback has exactly one label per solution position, guess letters
beyond the solution length are ignored, and solution positions beyond
the guess length are labeled `absent`. -/
theorem c10_evaluator_total (G S : String) :
    (evaluateGuess G S).length = S.length
    ∧ evaluateGuess G S = evaluateGuess (String.mk (G.data.take S.length)) S
    ∧ (∀ i, G.length ≤ i → i < S.length →
        (evaluateGuess G S).get? i = some Feedback.absent) := by
  have hnl : ∀ l : List Char, (normalize l).length = l.length := by
    intro l; simp [normalize]
  have hslen : (normalize S.data).length = S.length := hnl S.data
  refine ⟨?_, ?_, ?_⟩
  · simp only [evaluateGuess, evalCore]
    rw [pass2_length, pass1_fst_length, hslen]
  · simp only [evaluateGuess, evalCore]
    have hdata : normalize (String.mk (G.data.take S.length)).data
        = (normalize G.data).take (normalize S.data).length := by
      show normalize (G.data.take S.length) = (normalize G.data).take (normalize S.data).length
      rw [hslen]
      simp [normalize, List.map_take]
    rw [hdata, pass1_take]
    have hf : (pass1 (normalize G.data) (normalize S.data)).1.length
        = (normalize S.data).length := pass1_fst_length _ _
    conv_rhs => rw [← hf]
    rw [pass2_take]
  · intro i h1 h2
    simp only [evaluateGuess, evalCore]
    refine pass2_get_absent _ _ _ i ?_ ?_
    · rw [hnl G.data]; exact h1
    · exact pass1_get_none _ _ i (by rw [hnl G.data]; exact h1) (by rw [hslen]; exact h2)

/-- Witness for C10: a 2-letter guess against a 5-letter solution; the
fourth position (beyond the guess) is labeled `absent`. -/
theorem c10_witness :
    (evaluateGuess "ab" "abcde").get? 3 = some Feedback.absent :=
  (c10_evaluator_total "ab" "abcde").2.2 3 (by decide) (by decide)

/-- Claim C3: in a `waiting` room (well-formed: roster ids unique and
nobody timed out), the `join_room` of a new player that raises membership
from `maxPlayers - 1` to `maxPlayers` switches the status to `playing`,
and afterwards every member has remaining time equal to the limit
together with a live interval when a limit is configured, or the
unlimited sentinel `-1` when it is not; a join that does not reach
capacity leaves the room in `waiting`. -/
theorem c3_join_fills_room (st : ServerState) (sid roomId playerName : String)
    (g : GameState)
    (hfind : findRoom st.gameRooms roomId = some g)
    (hwait : g.status = Status.waiting)
    (hnew : g.players.any (fun p => p.id == sid) = false)
    (hnodup : (g.players.map (·.id)).Nodup)
    (hnto : ∀ p ∈ g.players, p.isTimedOut = false) :
    (g.players.length + 1 = g.maxPlayers →
      ∃ g', findRoom (join_room sid roomId playerName st).state.gameRooms roomId = some g'
        ∧ g'.status = Status.playing
        ∧ ∀ p ∈ g'.players,
            (∀ t, g.timeLimit = some t → p.timeRemaining = t
              ∧ (roomId, p.id) ∈ (join_room sid roomId playerName st).state.gameTimers)
            ∧ (g.timeLimit = none → p.timeRemaining = -1))
    ∧ (g.players.length + 1 ≠ g.maxPlayers →
      ∃ g', findRoom (join_room sid roomId playerName st).state.gameRooms roomId = some g'
        ∧ g'.status = Status.waiting) := by
  have hne : ¬ (g.status ≠ Status.waiting) := fun h => h hwait
  have hanyne : ¬ (g.players.any (fun p => p.id == sid) = true) := by
    rw [hnew]; simp
  have hsidnot : sid ∉ g.players.map (·.id) := by
    intro hmem
    obtain ⟨p, hp, hpid⟩ := List.mem_map.1 hmem
    exact hanyne (List.any_eq_true.2 ⟨p, hp, by rw [hpid]; simp⟩)
  constructor
  · intro hcap
    have hlt : ¬ (g.players.length ≥ g.maxPlayers) := by omega
    have hcapb : (g.players ++ [newPlayer sid playerName g.timeLimit]).length
        = g.maxPlayers := by
      simp only [List.length_append, List.length_singleton]
      exact hcap
    have hjr : (join_room sid roomId playerName st).state
        = ⟨setRoom st.gameRooms roomId
            (startAllTimers roomId (withStatus (withRoster g (g.players ++ [newPlayer sid playerName g.timeLimit])) Status.playing) st.gameTimers).1,
           (startAllTimers roomId (withStatus (withRoster g (g.players ++ [newPlayer sid playerName g.timeLimit])) Status.playing) st.gameTimers).2⟩ := by
      simp only [join_room, hfind]
      rw [if_neg hanyne, if_neg hlt, if_neg hne, if_pos hcapb]
      rfl
    have hpl : (withStatus (withRoster g (g.players ++ [newPlayer sid playerName g.timeLimit])) Status.playing).players
        = g.players ++ [newPlayer sid playerName g.timeLimit] := rfl
    have hnd2 : ((withStatus (withRoster g (g.players ++ [newPlayer sid playerName g.timeLimit])) Status.playing).players.map (·.id)).Nodup := by
      rw [hpl]
      simp only [List.map_append, List.map_cons, List.map_nil]
      rw [List.nodup_append]
      refine ⟨hnodup, List.nodup_singleton _, ?_⟩
      intro a ha hb
      simp only [newPlayer, List.mem_singleton] at hb
      rw [hb] at ha
      exact hsidnot ha
    have hnto2 : ∀ p ∈ (withStatus (withRoster g (g.players ++ [newPlayer sid playerName g.timeLimit])) Status.playing).players, p.isTimedOut = false := by
      rw [hpl]
      intro p hp
      rcases List.mem_append.1 hp with h | h
      · exact hnto p h
      · rw [List.mem_singleton.1 h]; rfl
    simp only [startAllTimers] at hjr
    obtain ⟨⟨hsta, htla⟩, hb, hc, hd, he⟩ :=
      startTimersFor_spec roomId
        ((withStatus (withRoster g (g.players ++ [newPlayer sid playerName g.timeLimit])) Status.playing).players.map (·.id))
        (withStatus (withRoster g (g.players ++ [newPlayer sid playerName g.timeLimit])) Status.playing)
        st.gameTimers hnd2 hnto2
    refine ⟨_, by rw [hjr]; exact findRoom_setRoom_self _ _ _, by rw [hsta]; rfl, ?_⟩
    intro p hp
    have hidin : p.id ∈ (withStatus (withRoster g (g.players ++ [newPlayer sid playerName g.timeLimit])) Status.playing).players.map (·.id) := by
      rw [← hb]
      exact List.mem_map_of_mem (·.id) hp
    have hfacts := he p hp hidin
    have htlg : (withStatus (withRoster g (g.players ++ [newPlayer sid playerName g.timeLimit])) Status.playing).timeLimit = g.timeLimit := rfl
    refine ⟨fun t ht => ?_, fun hnone => hfacts.2 (by rw [htlg]; exact hnone)⟩
    obtain ⟨htr, htm⟩ := hfacts.1 t (by rw [htlg]; exact ht)
    exact ⟨htr, by rw [hjr]; exact htm⟩
  · intro hncap
    by_cases hfull : g.players.length ≥ g.maxPlayers
    · have hjr : (join_room sid roomId playerName st).state = st := by
        simp only [join_room, hfind]
        rw [if_neg hanyne, if_pos hfull]
      exact ⟨g, by rw [hjr]; exact hfind, hwait⟩
    · have hcapb : ¬ ((g.players ++ [newPlayer sid playerName g.timeLimit]).length
          = g.maxPlayers) := by
        simp only [List.length_append, List.length_singleton]
        exact hncap
      have hjr : (join_room sid roomId playerName st).state
          = ⟨setRoom st.gameRooms roomId
              (withRoster g (g.players ++ [newPlayer sid playerName g.timeLimit])),
             st.gameTimers⟩ := by
        simp only [join_room, hfind]
        rw [if_neg hanyne, if_neg hfull, if_neg hne, if_neg hcapb]
        rfl
      refine ⟨withRoster g (g.players ++ [newPlayer sid playerName g.timeLimit]), ?_, ?_⟩
      · rw [hjr]; exact findRoom_setRoom_self _ _ _
      · exact hwait

/-- Witness for C3: a 2-player room with one member; the second join
starts the game with live 30-second timers. -/
theorem c3_witness :
    ∃ g', findRoom (join_room "s2" "R" "bob" c3St).state.gameRooms "R" = some g'
      ∧ g'.status = Status.playing
      ∧ ∀ p ∈ g'.players,
          (∀ t, c3Room.timeLimit = some t → p.timeRemaining = t
            ∧ ("R", p.id) ∈ (join_room "s2" "R" "bob" c3St).state.gameTimers)
          ∧ (c3Room.timeLimit = none → p.timeRemaining = -1) :=
  (c3_join_fills_room c3St "s2" "R" "bob" c3Room (by decide) (by decide) (by decide)
    (by decide) (by decide)).1 (by decide)

theorem filter_length_eq_iff_all {α : Type} (p : α → Bool) :
    ∀ l : List α, ((l.filter p).length = l.length) ↔ ∀ a ∈ l, p a = true := by
  intro l
  induction l with
  | nil => simp
  | cons x xs ih =>
    by_cases hx : p x = true
    · simp [hx, ih]
    · simp only [List.filter_cons, hx, Bool.false_eq_true, if_false, List.length_cons]
      constructor
      · intro h
        have hle := List.length_filter_le p xs
        omega
      · intro h
        exact absurd (h x (List.mem_cons_self _ _)) hx

/-- Claim C2 (amended): over `playing` states in which no player's most
recent guess is already fully correct (the winner branch of
`checkGameEnd` has priority over the timeout branches, and a `playing`
state with a winning last guess cannot survive `make_guess`): when every
player is timed out the check reports an end with no winner; when some
player is neither timed out nor out of guesses it reports no end, and a
player-timeout that leaves the room in such a configuration emits no
`game_over`. -/
theorem c2_timeout_end (g : GameState) (hplay : g.status = Status.playing)
    (hnowin : ∀ p ∈ g.players, isWinningPlayer p = false) :
    ((∀ p ∈ g.players, p.isTimedOut = true) → checkGameEnd g = (true, none))
    ∧ ((∃ p ∈ g.players, p.isTimedOut = false ∧ p.guesses.length < 6) →
        checkGameEnd g = (false, none)
        ∧ ∀ rid pid st g0, findRoom st.gameRooms rid = some g0 →
            (g0.players.any (fun p => p.id == pid)) = true →
            markTimedOut g0 pid = g →
            ∀ e ∈ (handlePlayerTimeout rid pid st).emits, e.event ≠ "game_over") := by
  have hfw : g.players.find? isWinningPlayer = none :=
    List.find?_eq_none.2 (fun p hp => by rw [hnowin p hp]; simp)
  constructor
  · intro hall
    have hlen : (g.players.filter (fun p => p.isTimedOut)).length = g.players.length :=
      (filter_length_eq_iff_all _ g.players).2 hall
    simp [checkGameEnd, hfw, hlen]
  · intro hopen
    obtain ⟨p, hp, htout, hguess⟩ := hopen
    have hlenne : ¬ ((g.players.filter (fun q => q.isTimedOut)).length = g.players.length) := by
      intro hcon
      have := (filter_length_eq_iff_all _ g.players).1 hcon p hp
      rw [htout] at this
      exact Bool.false_ne_true this
    have hallne : ¬ (g.players.all
        (fun q => decide (q.guesses.length ≥ 6) || q.isTimedOut) = true) := by
      intro hcon
      have := List.all_eq_true.1 hcon p hp
      rw [htout] at this
      simp only [Bool.or_false, decide_eq_true_eq] at this
      omega
    have hcge : checkGameEnd g = (false, none) := by
      simp only [checkGameEnd, hfw]
      rw [if_neg hlenne, if_neg hallne]
    refine ⟨hcge, ?_⟩
    intro rid pid st g0 hfind0 hany0 hmark e he
    cases hfq : g0.players.find? (fun q => q.id == pid) with
    | none =>
      obtain ⟨q, hq, hqid⟩ := List.any_eq_true.1 hany0
      exact absurd hqid (List.find?_eq_none.1 hfq q hq)
    | some q =>
      simp only [handlePlayerTimeout, hfind0, hfq, hmark, hcge, Bool.false_eq_true,
        if_false] at he
      simp only [List.mem_cons, List.mem_singleton] at he
      rcases he with he | he | he
      · rw [he]; simp
      · rw [he]; simp
      · simp at he

/-- Claim C2 as stated is false: `checkGameEnd` gives the winner branch
priority, so a `playing` state in which every player is timed out but one
player's last guess is fully correct is reported as a win, not as the
all-timed-out draw the claim requires. -/
theorem c2_counterexample :
    c2Room.status = Status.playing
    ∧ (∀ p ∈ c2Room.players, p.isTimedOut = true)
    ∧ checkGameEnd c2Room ≠ (true, none) := by decide

/-- Witness for C2 at two concrete rooms: an all-timed-out draw and a
still-open game. -/
theorem c2_witness :
    checkGameEnd c2DrawRoom = (true, none) ∧ checkGameEnd c2OpenRoom = (false, none) :=
  ⟨(c2_timeout_end c2DrawRoom (by decide) (by decide)).1 (by decide),
   ((c2_timeout_end c2OpenRoom (by decide) (by decide)).2 (by decide)).1⟩

/-- Appending the new guess to the player that `make_guess` found (who
had fewer than 6 guesses) keeps every history within the 6-guess bound. -/
theorem guesses_bound_after (g' : GameState) (sid' : String) (entry : GuessEntry)
    (player : PlayerState)
    (hfp : g'.players.find? (fun q => q.id == sid') = some player)
    (h6 : player.guesses.length < 6)
    (hb : ∀ q ∈ g'.players, q.guesses.length ≤ 6) :
    ∀ q ∈ updateFirstPlayer g'.players sid'
        (fun x => { x with guesses := x.guesses ++ [entry] }),
      q.guesses.length ≤ 6 := by
  intro q hq
  rcases mem_updateFirstPlayer _ _ _ q hq with h | ⟨q0, hq0, hq0'⟩
  · exact hb q h
  · have hq0p : q0 = player := Option.some.inj (hq0.symm.trans hfp)
    rw [hq0']
    simp only [List.length_append, List.length_singleton]
    rw [hq0p]
    omega

/-- Restarting a timer never changes any guess history. -/
theorem guesses_bound_startPlayerTimer (rid pid : String) (g : GameState)
    (timers : List (String × String))
    (hb : ∀ q ∈ g.players, q.guesses.length ≤ 6) :
    ∀ q ∈ (startPlayerTimer rid pid g timers).1.players, q.guesses.length ≤ 6 := by
  intro q hq
  cases hf : g.players.find? (fun p => p.id == pid) with
  | none =>
    simp only [startPlayerTimer, hf] at hq
    exact hb q hq
  | some p =>
    by_cases hto : p.isTimedOut = true
    · simp only [startPlayerTimer, hf, hto, if_true] at hq
      exact hb q hq
    · cases htl : g.timeLimit with
      | none =>
        simp only [startPlayerTimer, hf, hto, htl, Bool.false_eq_true, if_false] at hq
        rcases mem_updateFirstPlayer _ _ _ q hq with h | ⟨q0, hq0, hq0'⟩
        · exact hb q h
        · rw [hq0']
          exact hb q0 (List.mem_of_find?_eq_some hq0)
      | some t =>
        simp only [startPlayerTimer, hf, hto, htl, Bool.false_eq_true, if_false] at hq
        rcases mem_updateFirstPlayer _ _ _ q hq with h | ⟨q0, hq0, hq0'⟩
        · exact hb q h
        · rw [hq0']
          exact hb q0 (List.mem_of_find?_eq_some hq0)

/-- `make_guess` preserves the 6-guess bound on every room. -/
theorem make_guess_guesses_le (wl' : Nat → List String) (st' : ServerState)
    (sid' guess' : String)
    (hbound : ∀ r ∈ st'.gameRooms, ∀ q ∈ r.2.players, q.guesses.length ≤ 6) :
    ∀ r ∈ (make_guess wl' sid' guess' st').state.gameRooms, ∀ q ∈ r.2.players,
      q.guesses.length ≤ 6 := by
  intro r hr q hq
  cases hcase : findRoomByPlayer st'.gameRooms sid' with
  | none =>
    simp only [make_guess, hcase] at hr
    exact hbound r hr q hq
  | some pr =>
    obtain ⟨rid', g'⟩ := pr
    have hmemroom : (rid', g') ∈ st'.gameRooms := by
      have hc := hcase
      simp only [findRoomByPlayer] at hc
      exact List.mem_of_find?_eq_some hc
    have hbg' : ∀ q0 ∈ g'.players, q0.guesses.length ≤ 6 := hbound _ hmemroom
    simp only [make_guess, hcase] at hr
    by_cases h1 : g'.status ≠ Status.playing
    · rw [if_pos h1] at hr; exact hbound r hr q hq
    rw [if_neg h1] at hr
    by_cases h2 : guess'.length ≠ g'.wordLength
    · rw [if_pos h2] at hr; exact hbound r hr q hq
    rw [if_neg h2] at hr
    by_cases h3 : (!(isValidWord wl' guess')) = true
    · rw [if_pos h3] at hr; exact hbound r hr q hq
    rw [if_neg h3] at hr
    cases hfp : g'.players.find? (fun p => p.id == sid') with
    | none =>
      simp only [hfp] at hr
      exact hbound r hr q hq
    | some player =>
      simp only [hfp] at hr
      by_cases h6 : player.guesses.length ≥ 6
      · rw [if_pos h6] at hr; exact hbound r hr q hq
      rw [if_neg h6] at hr
      by_cases hto : player.isTimedOut = true
      · rw [if_pos hto] at hr; exact hbound r hr q hq
      rw [if_neg hto] at hr
      split at hr
      · split at hr
        · rcases mem_setRoom _ _ _ r hr with h | h
          · exact hbound r h q hq
          · rw [h] at hq
            exact guesses_bound_after g' sid' _ player hfp (by omega) hbg' q hq
        · rcases mem_setRoom _ _ _ r hr with h | h
          · exact hbound r h q hq
          · rw [h] at hq
            exact guesses_bound_after g' sid' _ player hfp (by omega) hbg' q hq
      · split at hr
        · rcases mem_setRoom _ _ _ r hr with h | h
          · exact hbound r h q hq
          · rw [h] at hq
            exact guesses_bound_startPlayerTimer rid' sid' _ st'.gameTimers
              (guesses_bound_after g' sid' _ player hfp (by omega) hbg') q hq
        · rcases mem_setRoom _ _ _ r hr with h | h
          · exact hbound r h q hq
          · rw [h] at hq
            exact guesses_bound_startPlayerTimer rid' sid' _ st'.gameTimers
              (guesses_bound_after g' sid' _ player hfp (by omega) hbg') q hq

/-- Claim C4: a `make_guess` by a player who already has 6 guesses (with
a guess of correct length that is in the word list) fails with the
attempts-exhausted error sent only to that caller and changes nothing;
and `make_guess` keeps every guess history within 6 entries. -/
theorem c4_guess_bound (wl : Nat → List String) (st : ServerState) (sid guess : String)
    (rid : String) (g : GameState) (p : PlayerState)
    (hfind : findRoomByPlayer st.gameRooms sid = some (rid, g))
    (hplay : g.status = Status.playing)
    (hlen : guess.length = g.wordLength)
    (hvalid : isValidWord wl guess = true)
    (hp : g.players.find? (fun q => q.id == sid) = some p)
    (hfull : p.guesses.length = 6) :
    make_guess wl sid guess st
      = ⟨st, [⟨Target.caller, "error", Payload.message "Tahmin hakkınız bitti!"⟩], false⟩
    ∧ ∀ (wl' : Nat → List String) (st' : ServerState) (sid' guess' : String),
        (∀ r ∈ st'.gameRooms, ∀ q ∈ r.2.players, q.guesses.length ≤ 6) →
        ∀ r ∈ (make_guess wl' sid' guess' st').state.gameRooms, ∀ q ∈ r.2.players,
          q.guesses.length ≤ 6 := by
  constructor
  · have h1 : ¬ (g.status ≠ Status.playing) := fun h => h hplay
    have h2 : ¬ (guess.length ≠ g.wordLength) := fun h => h hlen
    have h4 : p.guesses.length ≥ 6 := by omega
    simp only [make_guess, hfind, hvalid, Bool.not_true, Bool.false_eq_true, if_false, hp]
    rw [if_neg h1, if_neg h2, if_pos h4]
  · intro wl' st' sid' guess' hbound
    exact make_guess_guesses_le wl' st' sid' guess' hbound

/-- Claim C5: for each inbound action (join_room, make_guess,
request_rematch, accept_rematch, decline_rematch), whenever the action
reports an error or a word error to the caller, the whole server state —
the room registry with every Game State, and the timers — is exactly as
it was before the action. -/
theorem c5_errors_preserve_state (wl : Nat → List String) (st : ServerState)
    (sid roomId playerName guess : String) (pick now : Nat) :
    ((join_room sid roomId playerName st).emits.any isErrorEmit = true →
      (join_room sid roomId playerName st).state = st)
    ∧ ((make_guess wl sid guess st).emits.any isErrorEmit = true →
      (make_guess wl sid guess st).state = st)
    ∧ ((request_rematch sid st).emits.any isErrorEmit = true →
      (request_rematch sid st).state = st)
    ∧ ((accept_rematch wl sid pick now st).emits.any isErrorEmit = true →
      (accept_rematch wl sid pick now st).state = st)
    ∧ ((decline_rematch sid st).emits.any isErrorEmit = true →
      (decline_rematch sid st).state = st) := by
  refine ⟨?_, ?_, ?_, ?_, ?_⟩
  · intro h
    cases hf : findRoom st.gameRooms roomId with
    | none => simp [join_room, hf]
    | some g =>
      simp only [join_room, hf] at h ⊢
      by_cases h1 : (g.players.any (fun p => p.id == sid)) = true
      · rw [if_pos h1]
      · rw [if_neg h1] at h ⊢
        by_cases h2 : g.players.length ≥ g.maxPlayers
        · rw [if_pos h2]
        · rw [if_neg h2] at h ⊢
          by_cases h3 : g.status ≠ Status.waiting
          · rw [if_pos h3]
          · exfalso
            rw [if_neg h3] at h
            split at h <;> simp [isErrorEmit] at h
  · intro h
    cases hf : findRoomByPlayer st.gameRooms sid with
    | none => simp [make_guess, hf]
    | some pr =>
      obtain ⟨rid, g⟩ := pr
      simp only [make_guess, hf] at h ⊢
      by_cases h1 : g.status ≠ Status.playing
      · rw [if_pos h1]
      · rw [if_neg h1] at h ⊢
        by_cases h2 : guess.length ≠ g.wordLength
        · rw [if_pos h2]
        · rw [if_neg h2] at h ⊢
          by_cases h3 : (!(isValidWord wl guess)) = true
          · rw [if_pos h3]
          · rw [if_neg h3] at h ⊢
            cases hfp : g.players.find? (fun p => p.id == sid) with
            | none => simp only [hfp]
            | some player =>
              simp only [hfp] at h ⊢
              by_cases h6 : player.guesses.length ≥ 6
              · rw [if_pos h6]
              · rw [if_neg h6] at h ⊢
                by_cases hto : player.isTimedOut = true
                · rw [if_pos hto]
                · exfalso
                  rw [if_neg hto] at h
                  split at h <;> split at h <;> simp [isErrorEmit] at h
  · intro h
    cases hf : findRoomByPlayer st.gameRooms sid with
    | none => simp [request_rematch, hf]
    | some pr =>
      obtain ⟨rid, g⟩ := pr
      simp only [request_rematch, hf] at h ⊢
      by_cases h1 : g.status ≠ Status.finished
      · rw [if_pos h1]
      · rw [if_neg h1] at h ⊢
        by_cases h2 : g.players.length ≠ g.maxPlayers
        · rw [if_pos h2]
        · exfalso
          rw [if_neg h2] at h
          simp only [List.any_eq_true, List.mem_map] at h
          obtain ⟨e, ⟨p, hp, hpe⟩, he⟩ := h
          rw [← hpe] at he
          simp [isErrorEmit] at he
  · intro h
    cases hf : findRoomByPlayer st.gameRooms sid with
    | none => simp [accept_rematch, hf]
    | some pr =>
      obtain ⟨rid, g⟩ := pr
      simp only [accept_rematch, hf] at h ⊢
      cases hreq : g.rematchRequest with
      | none => simp only [hreq]
      | some req =>
        simp only [hreq] at h ⊢
        by_cases h1 : (!req.requested) = true
        · rw [if_pos h1]
        · rw [if_neg h1] at h ⊢
          by_cases h2 : (req.requesterId == sid) = true
          · rw [if_pos h2]
          · exfalso
            rw [if_neg h2] at h
            cases hw : getRandomWord wl pick g.wordLength with
            | none => simp only [hw] at h; simp at h
            | some w => simp only [hw] at h; simp [isErrorEmit] at h
  · intro h
    cases hf : findRoomByPlayer st.gameRooms sid with
    | none => simp [decline_rematch, hf]
    | some pr =>
      obtain ⟨rid, g⟩ := pr
      simp only [decline_rematch, hf] at h ⊢
      cases hreq : g.rematchRequest with
      | none => simp only [hreq]
      | some req =>
        simp only [hreq] at h ⊢
        by_cases h1 : (!req.requested) = true
        · rw [if_pos h1]
        · exfalso
          rw [if_neg h1] at h
          simp [isErrorEmit] at h

/-- Witness for C5: a join to an unknown room id errors and leaves the
(empty) registry untouched. -/
theorem c5_witness :
    (join_room "s1" "NOPE" "alice" (⟨[], []⟩ : ServerState)).state = (⟨[], []⟩ : ServerState) :=
  (c5_errors_preserve_state (fun _ => []) ⟨[], []⟩ "s1" "NOPE" "alice" "x" 0 0).1 (by decide)

/-- Witness for C4: a player with a full history of 6 guesses submits a
valid 7th guess and receives only the attempts-exhausted error. -/
theorem c4_witness :
    make_guess c4Words "s1" "kapak" c4St
      = ⟨c4St, [⟨Target.caller, "error", Payload.message "Tahmin hakkınız bitti!"⟩], false⟩ :=
  (c4_guess_bound c4Words c4St "s1" "kapak" "R" c4Room c4Player (by decide) (by decide)
    (by decide) (by decide) (by decide) (by decide)).1

/-- Claim C6: with a pending rematch request, `accept_rematch` by the
original requester fails with the cannot-accept-own-request error and
changes nothing; by any other member of the room (given a non-empty word
list for the room's length, whose words have that length) it succeeds:
histories cleared, timed-out and ready flags reset, remaining time reset,
a fresh solution of the same word length drawn, the negotiation record
cleared, and the status set to `playing`. -/
theorem c6_accept_rematch (wl : Nat → List String) (st : ServerState) (sid : String)
    (pick now : Nat) (rid : String) (g : GameState) (req : RematchRequest)
    (hfind : findRoomByPlayer st.gameRooms sid = some (rid, g))
    (hreq : g.rematchRequest = some req)
    (hreqd : req.requested = true)
    (hwords : ∀ w ∈ wl g.wordLength, w.length = g.wordLength)
    (hnonempty : wl g.wordLength ≠ []) :
    (req.requesterId = sid →
      accept_rematch wl sid pick now st
        = ⟨st, [⟨Target.caller, "error",
            Payload.message "Kendi rövanş talebinizi kabul edemezsiniz!"⟩], false⟩)
    ∧ (req.requesterId ≠ sid →
      ∃ g', findRoom (accept_rematch wl sid pick now st).state.gameRooms rid = some g'
        ∧ g'.status = Status.playing
        ∧ g'.rematchRequest = none
        ∧ g'.solution ∈ wl g.wordLength
        ∧ g'.solution.length = g.wordLength
        ∧ ∀ p ∈ g'.players, p.guesses = [] ∧ p.isTimedOut = false ∧ p.isReady = true
            ∧ p.timeRemaining = jsOr g.timeLimit (-1)) := by
  have hb1 : ¬ ((!req.requested) = true) := by rw [hreqd]; simp
  constructor
  · intro hself
    simp only [accept_rematch, hfind, hreq]
    rw [if_neg hb1, if_pos (by rw [hself]; simp)]
  · intro hother
    have hb2 : ¬ ((req.requesterId == sid) = true) := by
      intro hcon
      exact hother (by simpa using hcon)
    have hlen : (wl g.wordLength).length > 0 := List.length_pos.2 hnonempty
    have hrand : getRandomWord wl pick g.wordLength
        = some (List.get (wl g.wordLength)
            ⟨pick % (wl g.wordLength).length, Nat.mod_lt _ hlen⟩) := by
      simp only [getRandomWord]
      rw [dif_pos hlen]
    simp only [accept_rematch, hfind, hreq]
    rw [if_neg hb1, if_neg hb2]
    simp only [hrand]
    refine ⟨_, findRoom_setRoom_self _ _ _, rfl, rfl, List.get_mem _ _ _,
      hwords _ (List.get_mem _ _ _), ?_⟩
    intro p hp
    obtain ⟨p0, hp0, hp0'⟩ := List.mem_map.1 hp
    rw [← hp0']
    exact ⟨rfl, rfl, rfl, rfl⟩

/-- Witness for C6: the non-requester accepts; the room restarts with
cleared histories and a 5-letter solution from the repository. -/
theorem c6_witness :
    ∃ g', findRoom (accept_rematch c4Words "s2" 0 7 c6St).state.gameRooms "R" = some g'
      ∧ g'.status = Status.playing ∧ g'.rematchRequest = none
      ∧ g'.solution ∈ c4Words c6Room.wordLength
      ∧ g'.solution.length = c6Room.wordLength
      ∧ ∀ p ∈ g'.players, p.guesses = [] ∧ p.isTimedOut = false ∧ p.isReady = true
          ∧ p.timeRemaining = jsOr c6Room.timeLimit (-1) :=
  (c6_accept_rematch c4Words c6St "s2" 0 7 "R" c6Room ⟨"s1", true, none⟩ (by decide)
    (by decide) (by decide) (by decide) (by decide)).2 (by decide)

/-- Claim C9: when a disconnect removes the room's last remaining
player, every timer of the room is cancelled and the room is deleted at
once, so a subsequent `join_room` with that id fails with room-not-found;
and `disconnect` never leaves a room with zero players in the registry. -/
theorem c9_disconnect_deletes_empty (st : ServerState) (sid rid : String) (g : GameState)
    (hfind : findRoomByPlayer st.gameRooms sid = some (rid, g))
    (hone : g.players.length = 1) :
    (findRoom (disconnect sid st).state.gameRooms rid = none
      ∧ (∀ pid, (rid, pid) ∉ (disconnect sid st).state.gameTimers)
      ∧ ∀ sid2 name2, join_room sid2 rid name2 (disconnect sid st).state
          = ⟨(disconnect sid st).state,
             [⟨Target.caller, "error", Payload.message "Oda bulunamadı!"⟩], false⟩)
    ∧ ∀ (sid' : String) (st' : ServerState),
        (∀ r ∈ st'.gameRooms, r.2.players ≠ []) →
        ∀ r ∈ (disconnect sid' st').state.gameRooms, r.2.players ≠ [] := by
  constructor
  · have hpred : (g.players.any (fun q => q.id == sid)) = true := by
      have hc := hfind
      simp only [findRoomByPlayer] at hc
      have hps := List.find?_some hc
      simpa using hps
    have hrem : removeFirstPlayer g.players sid = [] := by
      cases hps : g.players with
      | nil => rw [hps] at hone; simp at hone
      | cons p rest =>
        have hrest : rest = [] := by
          rw [hps] at hone
          simpa using hone
        subst hrest
        rw [hps] at hpred
        simp only [List.any_cons, List.any_nil, Bool.or_false] at hpred
        simp [removeFirstPlayer, hpred]
    have hdis : disconnect sid st
        = ⟨⟨deleteRoom st.gameRooms rid, clearAllRoomTimers st.gameTimers rid⟩, [], false⟩ := by
      simp only [disconnect, hfind, hrem]
      rfl
    refine ⟨by rw [hdis]; exact findRoom_deleteRoom _ _, ?_, ?_⟩
    · intro pid hmem
      rw [hdis] at hmem
      simp only [clearAllRoomTimers, List.mem_filter] at hmem
      simpa using hmem.2
    · intro sid2 name2
      rw [hdis]
      simp only [join_room, findRoom_deleteRoom]
  · intro sid' st' hne r hr
    cases hf : findRoomByPlayer st'.gameRooms sid' with
    | none =>
      simp only [disconnect, hf] at hr
      exact hne r hr
    | some pr =>
      obtain ⟨rid', g'⟩ := pr
      simp only [disconnect, hf] at hr
      by_cases hlen0 : (removeFirstPlayer g'.players sid').length = 0
      · rw [if_pos hlen0] at hr
        have hmem : r ∈ st'.gameRooms := by
          simp only [deleteRoom, List.mem_filter] at hr
          exact hr.1
        exact hne r hmem
      · rw [if_neg hlen0] at hr
        rcases mem_setRoom _ _ _ r hr with h | h
        · exact hne r h
        · rw [h]
          intro hcon
          exact hlen0 (by rw [show removeFirstPlayer g'.players sid' = [] from hcon]; rfl)

/-- Witness for C9: the only player of a one-player room disconnects;
the room is gone and a re-join errors with room-not-found. -/
theorem c9_witness :
    findRoom (disconnect "s1" c9St).state.gameRooms "R" = none
    ∧ join_room "s2" "R" "bob" (disconnect "s1" c9St).state
        = ⟨(disconnect "s1" c9St).state,
           [⟨Target.caller, "error", Payload.message "Oda bulunamadı!"⟩], false⟩ :=
  ⟨(c9_disconnect_deletes_empty c9St "s1" "R" c3Room (by decide) (by decide)).1.1,
   (c9_disconnect_deletes_empty c9St "s1" "R" c3Room (by decide) (by decide)).1.2.2 "s2" "bob"⟩

/-- Claim C8: `create_room` (given a word for the chosen length from the
repository) always succeeds, registering a `waiting` room with exactly
one player, whose configuration is the clamped/defaulted input:
maxPlayers clamped into [2,5] with default 2, wordLength kept only when
5, 6 or 7 (else 5), timeLimit null kept, an allowed value kept, anything
else 30, absent 30.  No configuration input is rejected. -/
theorem c8_create_room (wl : Nat → List String) (sid playerName : String)
    (mp wle : Option Int) (tl : Option (Option Int)) (rid : String) (pick now : Nat)
    (st : ServerState) (w : String)
    (hrand : getRandomWord wl pick (validWordLengthOf wle) = some w) :
    (∃ g : GameState,
      create_room wl sid playerName mp wle tl rid pick now st
        = ⟨⟨setRoom st.gameRooms rid g, st.gameTimers⟩,
           [⟨Target.caller, "room_created", Payload.roomCreated rid⟩], false⟩
      ∧ g.status = Status.waiting
      ∧ g.players.length = 1
      ∧ g.maxPlayers = validMaxPlayersOf mp
      ∧ g.wordLength = validWordLengthOf wle
      ∧ g.timeLimit = validTimeLimitOf tl)
    ∧ (2 ≤ validMaxPlayersOf mp ∧ validMaxPlayersOf mp ≤ 5)
    ∧ (mp = none → validMaxPlayersOf mp = 2)
    ∧ (∀ v : Int, mp = some v → 2 ≤ v → v ≤ 5 → validMaxPlayersOf mp = v.toNat)
    ∧ (wle = none → validWordLengthOf wle = 5)
    ∧ (∀ v : Int, wle = some v → (v = 5 ∨ v = 6 ∨ v = 7) → validWordLengthOf wle = v.toNat)
    ∧ (∀ v : Int, wle = some v → ¬ (v = 5 ∨ v = 6 ∨ v = 7) → validWordLengthOf wle = 5)
    ∧ (tl = some none → validTimeLimitOf tl = none)
    ∧ (∀ v : Int, tl = some (some v) → (v = 30 ∨ v = 35 ∨ v = 60 ∨ v = 75 ∨ v = 90) →
        validTimeLimitOf tl = some v)
    ∧ (∀ v : Int, tl = some (some v) → ¬ (v = 30 ∨ v = 35 ∨ v = 60 ∨ v = 75 ∨ v = 90) →
        validTimeLimitOf tl = some 30)
    ∧ (tl = none → validTimeLimitOf tl = some 30) := by
  refine ⟨?_, ?_, ?_, ?_, ?_, ?_, ?_, ?_, ?_, ?_, ?_⟩
  · have heq : create_room wl sid playerName mp wle tl rid pick now st
        = ⟨⟨setRoom st.gameRooms rid
            { roomId := rid
              players := [newPlayer sid playerName (validTimeLimitOf tl)]
              maxPlayers := validMaxPlayersOf mp
              wordLength := validWordLengthOf wle
              timeLimit := validTimeLimitOf tl
              status := Status.waiting
              solution := w
              createdAt := now
              rematchRequest := none },
           st.gameTimers⟩,
          [⟨Target.caller, "room_created", Payload.roomCreated rid⟩], false⟩ := by
      simp only [create_room, hrand]
    exact ⟨_, heq, rfl, rfl, rfl, rfl, rfl⟩
  · have h1 : (2 : Int) ≤ max 2 (min 5 (jsOr mp 2)) := le_max_left _ _
    have h2 : min 5 (jsOr mp 2) ≤ 5 := min_le_left _ _
    have h3 : max 2 (min 5 (jsOr mp 2)) ≤ 5 := max_le (by norm_num) h2
    constructor <;> (simp only [validMaxPlayersOf]; omega)
  · intro h; subst h; decide
  · intro v h h2 h5
    subst h
    have h0 : ¬ v = 0 := by omega
    have hw : jsOr (some v) 2 = v := by simp [jsOr, h0]
    simp only [validMaxPlayersOf, hw]
    rw [min_eq_right h5, max_eq_right h2]
  · intro h; subst h; decide
  · intro v h hm
    subst h
    rcases hm with rfl | rfl | rfl <;> decide
  · intro v h hnm
    subst h
    by_cases h0 : v = 0
    · subst h0; decide
    · have hw : jsOr (some v) 5 = v := by simp [jsOr, h0]
      simp only [validWordLengthOf, hw]
      rw [if_neg (by simpa using hnm)]
  · intro h; subst h; rfl
  · intro v h hm
    subst h
    rcases hm with rfl | rfl | rfl | rfl | rfl <;> decide
  · intro v h hnm
    subst h
    by_cases h0 : v = 0
    · subst h0; decide
    · have hnz : ¬ ((v == 0) = true) := by simpa using h0
      simp only [validTimeLimitOf]
      rw [if_neg hnz, if_neg (by simpa using hnm)]
  · intro h; subst h; rfl

/-- Witness for C8: out-of-range inputs (9 players, 4-letter words, a
42-second limit) are silently clamped to 5, 5 and 30. -/
theorem c8_witness :
    ∃ g : GameState,
      create_room c4Words "s1" "alice" (some 9) (some 4) (some (some 42)) "R" 0 5 c8St
        = ⟨⟨setRoom c8St.gameRooms "R" g, c8St.gameTimers⟩,
           [⟨Target.caller, "room_created", Payload.roomCreated "R"⟩], false⟩
      ∧ g.status = Status.waiting ∧ g.players.length = 1
      ∧ g.maxPlayers = validMaxPlayersOf (some 9)
      ∧ g.wordLength = validWordLengthOf (some 4)
      ∧ g.timeLimit = validTimeLimitOf (some (some 42)) :=
  (c8_create_room c4Words "s1" "alice" (some 9) (some 4) (some (some 42)) "R" 0 5 c8St
    "kapak" (by decide)).1

theorem handlePlayerTimeout_emits_ok (rid pid : String) (st : ServerState) :
    ∀ e ∈ (handlePlayerTimeout rid pid st).emits, emitOkB e = true := by
  intro e he
  cases hf : findRoom st.gameRooms rid with
  | none => simp only [handlePlayerTimeout, hf] at he; simp at he
  | some g0 =>
    simp only [handlePlayerTimeout, hf] at he
    split at he
    · simp at he
    · split at he <;>
        (simp only [List.mem_cons, List.not_mem_nil, or_false] at he
         rcases he with he | he
         · rw [he]; rfl
         · rw [he]; rfl)

/-- Claim C7: `sanitizeGameStateForClient` preserves every field except
the removed solution, and every notification emitted anywhere in the
core carries no solution data except `game_over`, whose payload is the
end-of-game shape: winner identity (or null), the revealed solution, and
the sanitized state. -/
theorem c7_solution_secrecy (wl : Nat → List String) (st : ServerState)
    (sid roomId playerName guess : String) (mp wle : Option Int)
    (tl : Option (Option Int)) (rid pid : String) (pick now : Nat) (g : GameState)
    (timers : List (String × String)) (n : Int) :
    (∀ h : GameState, (sanitizeGameStateForClient h).roomId = h.roomId
      ∧ (sanitizeGameStateForClient h).players = h.players
      ∧ (sanitizeGameStateForClient h).maxPlayers = h.maxPlayers
      ∧ (sanitizeGameStateForClient h).wordLength = h.wordLength
      ∧ (sanitizeGameStateForClient h).timeLimit = h.timeLimit
      ∧ (sanitizeGameStateForClient h).status = h.status
      ∧ (sanitizeGameStateForClient h).createdAt = h.createdAt
      ∧ (sanitizeGameStateForClient h).rematchRequest = h.rematchRequest)
    ∧ (∀ e ∈ (create_room wl sid playerName mp wle tl rid pick now st).emits,
        emitOkB e = true)
    ∧ (∀ e ∈ (join_room sid roomId playerName st).emits, emitOkB e = true)
    ∧ (∀ e ∈ (make_guess wl sid guess st).emits, emitOkB e = true)
    ∧ (∀ e ∈ (request_rematch sid st).emits, emitOkB e = true)
    ∧ (∀ e ∈ (accept_rematch wl sid pick now st).emits, emitOkB e = true)
    ∧ (∀ e ∈ (decline_rematch sid st).emits, emitOkB e = true)
    ∧ (∀ e ∈ (disconnect sid st).emits, emitOkB e = true)
    ∧ (∀ e ∈ (handlePlayerTimeout rid pid st).emits, emitOkB e = true)
    ∧ (∀ e ∈ (timerTick rid pid st).emits, emitOkB e = true)
    ∧ emitOkB (rematchCountdownEmit rid n) = true
    ∧ (∀ e ∈ (rematchCountdownFinish rid g timers).2, emitOkB e = true) := by
  refine ⟨fun h => ⟨rfl, rfl, rfl, rfl, rfl, rfl, rfl, rfl⟩, ?_, ?_, ?_, ?_, ?_, ?_, ?_,
    handlePlayerTimeout_emits_ok rid pid st, ?_, rfl, ?_⟩
  · intro e he
    cases hw : getRandomWord wl pick (validWordLengthOf wle) with
    | none => simp only [create_room, hw] at he; simp at he
    | some w =>
      simp only [create_room, hw, List.mem_singleton] at he
      rw [he]; rfl
  · intro e he
    cases hf : findRoom st.gameRooms roomId with
    | none => simp only [join_room, hf, List.mem_singleton] at he; rw [he]; rfl
    | some g0 =>
      simp only [join_room, hf] at he
      split at he
      · simp only [List.mem_singleton] at he; rw [he]; rfl
      · split at he
        · simp only [List.mem_singleton] at he; rw [he]; rfl
        · split at he
          · simp only [List.mem_singleton] at he; rw [he]; rfl
          · split at he
            · simp only [List.mem_append, List.mem_cons, List.not_mem_nil, or_false] at he
              rcases he with (he | he) | he
              · rw [he]; rfl
              · rw [he]; rfl
              · rw [he]; rfl
            · simp only [List.mem_cons, List.not_mem_nil, or_false] at he
              rcases he with he | he
              · rw [he]; rfl
              · rw [he]; rfl
  · intro e he
    cases hf : findRoomByPlayer st.gameRooms sid with
    | none => simp only [make_guess, hf, List.mem_singleton] at he; rw [he]; rfl
    | some pr =>
      obtain ⟨rid0, g0⟩ := pr
      simp only [make_guess, hf] at he
      split at he
      · simp only [List.mem_singleton] at he; rw [he]; rfl
      · split at he
        · simp only [List.mem_singleton] at he; rw [he]; rfl
        · split at he
          · simp only [List.mem_singleton] at he; rw [he]; rfl
          · split at he
            · simp only [List.mem_singleton] at he; rw [he]; rfl
            · split at he
              · simp only [List.mem_singleton] at he; rw [he]; rfl
              · split at he
                · simp only [List.mem_singleton] at he; rw [he]; rfl
                · split at he <;> split at he <;>
                    (simp only [List.mem_singleton] at he; rw [he]; rfl)
  · intro e he
    cases hf : findRoomByPlayer st.gameRooms sid with
    | none => simp only [request_rematch, hf, List.mem_singleton] at he; rw [he]; rfl
    | some pr =>
      obtain ⟨rid0, g0⟩ := pr
      simp only [request_rematch, hf] at he
      split at he
      · simp only [List.mem_singleton] at he; rw [he]; rfl
      · split at he
        · simp only [List.mem_singleton] at he; rw [he]; rfl
        · simp only [List.mem_map] at he
          obtain ⟨p, hp, hpe⟩ := he
          rw [← hpe]; rfl
  · intro e he
    cases hf : findRoomByPlayer st.gameRooms sid with
    | none => simp only [accept_rematch, hf, List.mem_singleton] at he; rw [he]; rfl
    | some pr =>
      obtain ⟨rid0, g0⟩ := pr
      simp only [accept_rematch, hf] at he
      split at he
      · simp only [List.mem_singleton] at he; rw [he]; rfl
      · split at he
        · simp only [List.mem_singleton] at he; rw [he]; rfl
        · split at he
          · simp only [List.mem_singleton] at he; rw [he]; rfl
          · split at he
            · simp at he
            · simp only [List.mem_singleton] at he; rw [he]; rfl
  · intro e he
    cases hf : findRoomByPlayer st.gameRooms sid with
    | none => simp only [decline_rematch, hf, List.mem_singleton] at he; rw [he]; rfl
    | some pr =>
      obtain ⟨rid0, g0⟩ := pr
      simp only [decline_rematch, hf] at he
      split at he
      · simp only [List.mem_singleton] at he; rw [he]; rfl
      · split at he
        · simp only [List.mem_singleton] at he; rw [he]; rfl
        · simp only [List.mem_singleton] at he; rw [he]; rfl
  · intro e he
    cases hf : findRoomByPlayer st.gameRooms sid with
    | none => simp only [disconnect, hf] at he; simp at he
    | some pr =>
      obtain ⟨rid0, g0⟩ := pr
      simp only [disconnect, hf] at he
      split at he
      · simp at he
      · simp only [List.mem_singleton] at he; rw [he]; rfl
  · intro e he
    cases hf : findRoom st.gameRooms rid with
    | none => simp only [timerTick, hf] at he; simp at he
    | some g0 =>
      simp only [timerTick, hf] at he
      split at he
      · simp at he
      · split at he
        · simp only [List.mem_cons] at he
          rcases he with he | he
          · rw [he]; rfl
          · exact handlePlayerTimeout_emits_ok rid pid _ e he
        · simp only [List.mem_singleton] at he; rw [he]; rfl
  · intro e he
    simp only [rematchCountdownFinish, List.mem_singleton] at he
    rw [he]; rfl

/-- Witness for C7 at the rematch-start broadcast of a concrete room. -/
theorem c7_witness :
    emitOkB ⟨Target.ioTo "R", "game_start",
      Payload.state (sanitizeGameStateForClient c3Room)⟩ = true :=
  (c7_solution_secrecy c4Words c8St "s" "R" "n" "g" none none none "R" "p" 0 0 c3Room
    [] 3).2.2.2.2.2.2.2.2.2.2.2 _ (by decide)

end Harfiye
